import Mathlib

/-! Scott CPU assembler (`sca.c`): a shallow embedding and its properties.

The assembler turns one source line at a time into at most two bytes of a
256-byte image.  The embedding below follows `src/sca.c` function by function.

Conventions of the embedding
* a C string is a `List Char` without its terminating NUL; the character
  `'\x00'` inside a list ends the string as it does in C (`cstr`);
* the output buffer `out` is a function from byte index to byte value, the
  pointer `*pos` is the index `pos - out`;
* `errstr` is the text `snprintf` leaves in the error buffer (every message
  is far shorter than `ERR_LEN`, so nothing is truncated);
* a function returning `0`/`-1` and writing through pointers returns its
  result code together with the new values of what it can write;
* `line_no` is a natural number: the `int` counter of the driver only counts
  upwards from 1.
-/

namespace Sca

/-! ## Constants and the instruction table -/

/-- Capacity of the output image, `#define OUT_LEN 256`. -/
def OUT_LEN : Nat := 256

/-- Operand shapes, `enum operands`. -/
inductive operands where
  | OPERANDS_RA_RB
  | OPERANDS_RB
  | OPERANDS_RB_K
  | OPERANDS_K
  | OPERANDS_NONE
  deriving DecidableEq, Repr

open operands

/-- One row of the table, `struct instruction`. -/
structure instruction where
  mnemonic : List Char
  opcode : Nat
  nops : operands
  deriving DecidableEq, Repr

/-- The table `instructions[]`, in source order. -/
def instructions : List instruction :=
  [ ⟨"ADD".toList, 0x80, OPERANDS_RA_RB⟩,
    ⟨"SHR".toList, 0x90, OPERANDS_RA_RB⟩,
    ⟨"SHL".toList, 0xa0, OPERANDS_RA_RB⟩,
    ⟨"NOT".toList, 0xb0, OPERANDS_RA_RB⟩,
    ⟨"AND".toList, 0xc0, OPERANDS_RA_RB⟩,
    ⟨"OR".toList, 0xd0, OPERANDS_RA_RB⟩,
    ⟨"XOR".toList, 0xe0, OPERANDS_RA_RB⟩,
    ⟨"CMP".toList, 0xf0, OPERANDS_RA_RB⟩,
    ⟨"LD".toList, 0x00, OPERANDS_RA_RB⟩,
    ⟨"ST".toList, 0x10, OPERANDS_RA_RB⟩,
    ⟨"DATA".toList, 0x20, OPERANDS_RB_K⟩,
    ⟨"JMPR".toList, 0x30, OPERANDS_RB⟩,
    ⟨"JMP".toList, 0x40, OPERANDS_K⟩,
    ⟨"JC".toList, 0x58, OPERANDS_K⟩,
    ⟨"JA".toList, 0x54, OPERANDS_K⟩,
    ⟨"JE".toList, 0x52, OPERANDS_K⟩,
    ⟨"JZ".toList, 0x51, OPERANDS_K⟩,
    ⟨"JCA".toList, 0x5c, OPERANDS_K⟩,
    ⟨"JCE".toList, 0x5a, OPERANDS_K⟩,
    ⟨"JCZ".toList, 0x59, OPERANDS_K⟩,
    ⟨"JAE".toList, 0x56, OPERANDS_K⟩,
    ⟨"JAZ".toList, 0x55, OPERANDS_K⟩,
    ⟨"JEZ".toList, 0x53, OPERANDS_K⟩,
    ⟨"JCAE".toList, 0x5e, OPERANDS_K⟩,
    ⟨"JCAZ".toList, 0x5d, OPERANDS_K⟩,
    ⟨"JCEZ".toList, 0x5b, OPERANDS_K⟩,
    ⟨"JAEZ".toList, 0x57, OPERANDS_K⟩,
    ⟨"JCAEZ".toList, 0x5f, OPERANDS_K⟩,
    ⟨"CLF".toList, 0x60, OPERANDS_NONE⟩,
    ⟨"IND".toList, 0x70, OPERANDS_RB⟩,
    ⟨"INA".toList, 0x74, OPERANDS_RB⟩,
    ⟨"OUTD".toList, 0x78, OPERANDS_RB⟩,
    ⟨"OUTA".toList, 0x7c, OPERANDS_RB⟩ ]

/-! ## The C library functions the assembler calls -/

/-- The C-locale `toupper`: the 26 lowercase letters map to their capitals,
every other character is returned as it is. -/
def toupper (c : Char) : Char :=
  if c = 'a' then 'A' else if c = 'b' then 'B' else if c = 'c' then 'C'
  else if c = 'd' then 'D' else if c = 'e' then 'E' else if c = 'f' then 'F'
  else if c = 'g' then 'G' else if c = 'h' then 'H' else if c = 'i' then 'I'
  else if c = 'j' then 'J' else if c = 'k' then 'K' else if c = 'l' then 'L'
  else if c = 'm' then 'M' else if c = 'n' then 'N' else if c = 'o' then 'O'
  else if c = 'p' then 'P' else if c = 'q' then 'Q' else if c = 'r' then 'R'
  else if c = 's' then 'S' else if c = 't' then 'T' else if c = 'u' then 'U'
  else if c = 'v' then 'V' else if c = 'w' then 'W' else if c = 'x' then 'X'
  else if c = 'y' then 'Y' else if c = 'z' then 'Z' else c

/-- The C-locale `isspace`: space, `\t`, `\n`, `\v`, `\f`, `\r`. -/
def isspace (c : Char) : Bool :=
  c = ' ' || c = '\t' || c = '\n' || c = '\x0b' || c = '\x0c' || c = '\r'

/-- A buffer read as a C string: everything before the first NUL. -/
def cstr : List Char → List Char
  | [] => []
  | c :: cs => if c = '\x00' then [] else c :: cstr cs

/-- The effect of `pch = strstr(line, ";"); if (pch) *pch = 0`: the string is
cut at its first semicolon. -/
def strip_comment : List Char → List Char
  | [] => []
  | c :: cs => if c = ';' then [] else c :: strip_comment cs

/-- The token scan of `strtok`: the characters up to the next delimiter, and
the text after that delimiter (which `strtok` overwrites with NUL and steps
over); at the end of the string the remaining text is empty. -/
def strtok_scan (delim : List Char) : List Char → List Char × List Char
  | [] => ([], [])
  | c :: cs =>
    if c ∈ delim then ([], cs)
    else ((c :: (strtok_scan delim cs).1), (strtok_scan delim cs).2)

/-- The C function `strtok` on the text `s` still to be scanned: leading
delimiters are skipped; `none` is the NULL result (no token left), otherwise
the token and the text the next call continues from. -/
def strtok (delim : List Char) : List Char → Option (List Char × List Char)
  | [] => none
  | c :: cs => if c ∈ delim then strtok delim cs else some (strtok_scan delim (c :: cs))

/-- Value of a character as a digit of `strtol`: `0-9`, then letters of
either case from 10 upwards. -/
def digit_value (c : Char) : Option Nat :=
  if '0' ≤ c ∧ c ≤ '9' then some (c.toNat - '0'.toNat)
  else if 'a' ≤ c ∧ c ≤ 'z' then some (c.toNat - 'a'.toNat + 10)
  else if 'A' ≤ c ∧ c ≤ 'Z' then some (c.toNat - 'A'.toNat + 10)
  else none

/-- The digit loop of `strtol`: digits below the base are accumulated, the
first other character ends the number. -/
def strtol_digits (base : Nat) : List Char → Nat → Nat
  | [], acc => acc
  | c :: cs, acc =>
    match digit_value c with
    | some d => if d < base then strtol_digits base cs (acc * base + d) else acc
    | none => acc

/-- Largest `long` (LP64). -/
def LONG_MAX : Int := 2 ^ 63 - 1

/-- Smallest `long` (LP64). -/
def LONG_MIN : Int := -(2 ^ 63)

/-- Whether the text starts with `0x`/`0X` followed by a hexadecimal digit. -/
def has_hex_prefix : List Char → Bool
  | '0' :: x :: h :: _ =>
    (x = 'x' || x = 'X') &&
      (match digit_value h with
       | some d => decide (d < 16)
       | none => false)
  | _ => false

/-- The C function `strtol(s, NULL, base)` as ISO C99 and C11 define it, for
the bases the assembler uses (0, 2 and 16): white space is skipped, a sign is
read, base 16 and base 0 accept a `0x` prefix, base 0 reads a leading `0` as
octal and anything else as decimal; the value saturates at
`LONG_MIN`/`LONG_MAX`; a text without digits gives 0. -/
def strtol (s : List Char) (base : Nat) : Int :=
  let s1 := s.dropWhile isspace
  let neg : Bool := s1.head? = some '-'
  let s2 := if s1.head? = some '-' ∨ s1.head? = some '+' then s1.tail else s1
  let hex : Bool := (base = 0 ∨ base = 16) ∧ has_hex_prefix s2
  let base1 := if hex then 16 else if base = 0 then (if s2.head? = some '0' then 8 else 10) else base
  let s3 := if hex then s2.drop 2 else s2
  let acc : Int := (strtol_digits base1 s3 0 : Nat)
  if neg then max LONG_MIN (-acc) else min LONG_MAX acc

/-- The text `snprintf(errstr, ERR_LEN, "%d: %s", line_no, reason)` writes. -/
def errfmt (line_no : Nat) (reason : String) : String :=
  toString line_no ++ ": " ++ reason

/-! ## The assembler -/

/-- What a call can change: the image bytes, the cursor `*pos - out` and the
error buffer. -/
structure State where
  out : Nat → Nat
  pos : Nat
  errstr : String

/-- The C function `inject_ra`: returns the result code, the opcode byte
`*pos` and the error buffer after the call. -/
def inject_ra (pch : List Char) (line_no : Nat) (byte : Nat) (errstr : String) :
    Int × Nat × String :=
  if pch = "r1".toList then (0, byte ||| 0x04, errstr)
  else if pch = "r2".toList then (0, byte ||| 0x08, errstr)
  else if pch = "r3".toList then (0, byte ||| 0x0c, errstr)
  else if pch ≠ "r0".toList then (-1, byte, errfmt line_no "Invalid register")
  else (0, byte, errstr)

/-- The C function `inject_rb`: returns the result code, the opcode byte
`*pos` and the error buffer after the call. -/
def inject_rb (pch : List Char) (line_no : Nat) (byte : Nat) (errstr : String) :
    Int × Nat × String :=
  if pch = "r1".toList then (0, byte ||| 0x01, errstr)
  else if pch = "r2".toList then (0, byte ||| 0x02, errstr)
  else if pch = "r3".toList then (0, byte ||| 0x03, errstr)
  else if pch ≠ "r0".toList then (-1, byte, errfmt line_no "Invalid register")
  else (0, byte, errstr)

/-- The `long` value `k` that `parse_constant` computes from its token: the
last character selects the base (`b`: 2, `h`: 16, both dropped; otherwise
automatic). -/
def constant_value (pch : List Char) : Int :=
  if pch.getLast? = some 'b' then strtol pch.dropLast 2
  else if pch.getLast? = some 'h' then strtol pch.dropLast 16
  else strtol pch 0

/-- The C function `parse_constant`: returns the result code, the byte `*pos`
and the error buffer after the call.  For `-128 ≤ k < 0` the byte that
`*pos = (char)k` leaves in the `unsigned char` is `k + 256`. -/
def parse_constant (pch : List Char) (line_no : Nat) (byte : Nat) (errstr : String) :
    Int × Nat × String :=
  let k := constant_value pch
  if k < -128 ∨ k > 255 then
    (-1, byte, errfmt line_no "Invalid operand size (constant must fit in one byte)")
  else if k < 0 then (0, (k + 256).toNat, errstr)
  else (0, k.toNat, errstr)

/-- The C function `check_output_length`; `pos` is the offset `pos - out`.
Returns the result code and the error buffer after the call. -/
def check_output_length (line_no : Nat) (pos : Nat) (errstr : String) : Int × String :=
  if pos ≥ OUT_LEN then
    (-1, toString line_no ++ ": " ++ "Resulting file too large - output file size limit:"
      ++ " " ++ toString OUT_LEN ++ " " ++ "bytes")
  else (0, errstr)

/-- Linear search of the table, the `for` loop of `parse_line`: the first
row whose mnemonic is the token. -/
def lookup (pch : List Char) : List instruction → Option instruction
  | [] => none
  | i :: is => if i.mnemonic = pch then some i else lookup pch is

/-- Writing one byte: `out[p] = v`. -/
def poke (out : Nat → Nat) (p v : Nat) : Nat → Nat :=
  fun i => if i = p then v else out i

/-- The C call `memset(out + p, 0, n)`. -/
def memset0 (out : Nat → Nat) (p n : Nat) : Nat → Nat :=
  fun i => if p ≤ i ∧ i < p + n then 0 else out i

/-- The PAD branch of `parse_line`, entered with the text after the
directive's name. -/
def parse_pad (rest : List Char) (line_no : Nat) (st : State) : Int × State :=
  match strtok " \t\n".toList rest with
  | none =>
    (-1, { st with errstr := errfmt line_no "Invalid combination of operands for directive" })
  | some (pch, _) =>
    let r := parse_constant pch line_no 0 st.errstr
    if r.1 = -1 then (-1, { st with errstr := r.2.2 })
    else
      let padding := r.2.1
      let chk := check_output_length line_no (st.pos + padding) r.2.2
      if chk.1 = -1 then (-1, { st with errstr := chk.2 })
      else (0, { out := memset0 st.out st.pos padding, pos := st.pos + padding, errstr := chk.2 })

/-- The `switch (inst->nops)` of `parse_line` and the final `(*pos)++`,
entered after the opcode has been stored at the cursor. -/
def parse_operands (inst : instruction) (rest : List Char) (line_no : Nat) (st : State) :
    Int × State :=
  match inst.nops with
  | OPERANDS_RA_RB =>
    match strtok " ,\t\n".toList rest with
    | none => (-1, { st with errstr := errfmt line_no "Invalid combination of operands" })
    | some (pa, rest1) =>
      let ra := inject_ra pa line_no (st.out st.pos) st.errstr
      let st1 : State := { st with out := poke st.out st.pos ra.2.1, errstr := ra.2.2 }
      if ra.1 = -1 then (-1, st1)
      else
        match strtok " ,\t\n".toList rest1 with
        | none => (-1, { st1 with errstr := errfmt line_no "Invalid combination of operands" })
        | some (pb, _) =>
          let rb := inject_rb pb line_no (st1.out st1.pos) st1.errstr
          let st2 : State := { st1 with out := poke st1.out st1.pos rb.2.1, errstr := rb.2.2 }
          if rb.1 = -1 then (-1, st2)
          else (0, { st2 with pos := st2.pos + 1 })
  | OPERANDS_RB =>
    match strtok " \t\n".toList rest with
    | none => (-1, { st with errstr := errfmt line_no "Invalid combination of operands" })
    | some (pb, _) =>
      let rb := inject_rb pb line_no (st.out st.pos) st.errstr
      let st1 : State := { st with out := poke st.out st.pos rb.2.1, errstr := rb.2.2 }
      if rb.1 = -1 then (-1, st1)
      else (0, { st1 with pos := st1.pos + 1 })
  | OPERANDS_RB_K =>
    match strtok " ,\t\n".toList rest with
    | none => (-1, { st with errstr := errfmt line_no "Invalid combination of operands" })
    | some (pb, rest1) =>
      let rb := inject_rb pb line_no (st.out st.pos) st.errstr
      let st1 : State := { st with out := poke st.out st.pos rb.2.1, errstr := rb.2.2 }
      if rb.1 = -1 then (-1, st1)
      else
        let st2 : State := { st1 with pos := st1.pos + 1 }
        let chk := check_output_length line_no st2.pos st2.errstr
        if chk.1 = -1 then (-1, { st2 with errstr := chk.2 })
        else
          match strtok " ,\t\n".toList rest1 with
          | none => (-1, { st2 with errstr := errfmt line_no "Invalid combination of operands" })
          | some (pk, _) =>
            let k := parse_constant pk line_no (st2.out st2.pos) chk.2
            let st3 : State := { st2 with out := poke st2.out st2.pos k.2.1, errstr := k.2.2 }
            if k.1 = -1 then (-1, st3)
            else (0, { st3 with pos := st3.pos + 1 })
  | OPERANDS_K =>
    let st2 : State := { st with pos := st.pos + 1 }
    let chk := check_output_length line_no st2.pos st2.errstr
    if chk.1 = -1 then (-1, { st2 with errstr := chk.2 })
    else
      match strtok " \t\n".toList rest with
      | none => (-1, { st2 with errstr := errfmt line_no "Invalid combination of operands" })
      | some (pk, _) =>
        let k := parse_constant pk line_no (st2.out st2.pos) chk.2
        let st3 : State := { st2 with out := poke st2.out st2.pos k.2.1, errstr := k.2.2 }
        if k.1 = -1 then (-1, st3)
        else (0, { st3 with pos := st3.pos + 1 })
  | OPERANDS_NONE => (0, { st with pos := st.pos + 1 })

/-- The C function `parse_line`: the result code and the state after the
call. -/
def parse_line (line : List Char) (line_no : Nat) (st : State) : Int × State :=
  match strtok " \t\n".toList (strip_comment (cstr line)) with
  | none => (0, st)
  | some (pch, rest) =>
    let pch := pch.map toupper
    if pch = "PAD".toList then parse_pad rest line_no st
    else
      let chk := check_output_length line_no st.pos st.errstr
      if chk.1 = -1 then (-1, { st with errstr := chk.2 })
      else
        match lookup pch instructions with
        | none => (-1, { st with errstr := errfmt line_no "Invalid instruction mnemonic" })
        | some inst =>
          parse_operands inst rest line_no
            { st with out := poke st.out st.pos inst.opcode, errstr := chk.2 }

/-- The lines `getline` returns one after the other: each ends with its
newline, except possibly the last of the file. -/
def getlines : List Char → List (List Char)
  | [] => []
  | c :: cs =>
    if c = '\n' then [c] :: getlines cs
    else
      match getlines cs with
      | [] => [[c]]
      | l :: ls => (c :: l) :: ls

/-- The `while` loop of `parse_source_file` over the lines still to be read:
`res` is the value the variable holds on entry. -/
def parse_lines : List (List Char) → Nat → Int → State → Int × State
  | [], _, res, st => (res, st)
  | line :: more, line_no, _, st =>
    let r := parse_line line line_no st
    if r.1 = -1 then r else parse_lines more (line_no + 1) r.1 r.2

/-- The C function `parse_source_file` on the text of the file: the value
returned (`-1`, or the byte count `pos - out`) and the final state.  `res0` is
the value the uninitialised local `res` happens to hold before the loop. -/
def parse_source_file (file : List Char) (res0 : Int) (out : Nat → Nat) (errstr : String) :
    Int × State :=
  let r := parse_lines (getlines file) 1 res0 { out := out, pos := 0, errstr := errstr }
  if r.1 = -1 then (-1, r.2) else ((r.2.pos : Int), r.2)

/-! ## Statement-level definitions -/

/-- The state after feeding a sequence of (line, line number) pairs to
`parse_line` one after the other, whatever result code each call returns. -/
def feed (calls : List (List Char × Nat)) (st : State) : State :=
  calls.foldl (fun s c => (parse_line c.1 c.2 s).2) st

/-- The token `parse_line` hands to `parse_constant` for a two-byte
instruction, given the text after the mnemonic: the second operand token of an
`OPERANDS_RB_K` line, the only operand token of an `OPERANDS_K` line. -/
def constant_token (inst : instruction) (rest : List Char) : Option (List Char) :=
  match inst.nops with
  | OPERANDS_RB_K =>
    match strtok " ,\t\n".toList rest with
    | some (_, rest1) => (strtok " ,\t\n".toList rest1).map Prod.fst
    | none => none
  | OPERANDS_K => (strtok " \t\n".toList rest).map Prod.fst
  | _ => none

/-- Digits of `n` in the given base, most significant first, written with
the characters `0-9a-f`; `fuel` bounds the number of digits. -/
def literal_digits (base : Nat) : Nat → Nat → List Char
  | 0, _ => []
  | fuel + 1, n =>
    if n < base then [Nat.digitChar n]
    else literal_digits base fuel (n / base) ++ [Nat.digitChar (n % base)]

/-- The literal of a natural number in the given base (`0` for zero, no
leading zero otherwise). -/
def nat_literal (base n : Nat) : List Char := literal_digits base (n + 1) n

/-- The literal of an integer: a leading `-` for a negative number, then the
literal of its absolute value. -/
def int_literal (base : Nat) (k : Int) : List Char :=
  if k < 0 then '-' :: nat_literal base k.natAbs else nat_literal base k.natAbs

/-- The decimal literal of `k`. -/
def dec_literal (k : Int) : List Char := int_literal 10 k

/-- The binary literal of `k` followed by the suffix `b`. -/
def bin_literal (k : Int) : List Char := int_literal 2 k ++ ['b']

/-- The lowercase hexadecimal literal of `k` followed by the suffix `h`. -/
def hex_literal (k : Int) : List Char := int_literal 16 k ++ ['h']

/-- The uppercase hexadecimal literal of `k` followed by the suffix `h`. -/
def hex_literal_upper (k : Int) : List Char := (int_literal 16 k).map toupper ++ ['h']

/-- The pairs (lowercase letter, capital) of `toupper`. -/
def lower_upper : List (Char × Char) :=
  [('a', 'A'), ('b', 'B'), ('c', 'C'), ('d', 'D'), ('e', 'E'), ('f', 'F'), ('g', 'G'),
   ('h', 'H'), ('i', 'I'), ('j', 'J'), ('k', 'K'), ('l', 'L'), ('m', 'M'), ('n', 'N'),
   ('o', 'O'), ('p', 'P'), ('q', 'Q'), ('r', 'R'), ('s', 'S'), ('t', 'T'), ('u', 'U'),
   ('v', 'V'), ('w', 'W'), ('x', 'X'), ('y', 'Y'), ('z', 'Z')]

/-- Characters that can start the digits of a number: not `0`, not a sign, not
white space. -/
def lead (c : Char) : Prop := c ≠ '0' ∧ c ≠ '-' ∧ c ≠ '+' ∧ isspace c = false

/-- Every character of the text is a digit below the base. -/
def digits_ok (base : Nat) (l : List Char) : Prop :=
  ∀ c ∈ l, ∃ d, d < base ∧ digit_value c = some d

/-- The value `strtol` gives for the literal of `k`: `k` itself, saturated to
a `long`. -/
def saturate (k : Int) : Int := if k < 0 then max LONG_MIN k else min LONG_MAX k

/-- The 52 letters. -/
def letters : List Char :=
  "ABCDEFGHIJKLMNOPQRSTUVWXYZabcdefghijklmnopqrstuvwxyz".toList

/-- The register token `r<r>`. -/
def reg_token (r : Nat) : List Char := ['r', Nat.digitChar r]

/-- The operand text of the minimal valid line of each shape: ` r<ra>, r<rb>`,
` r<rb>`, ` r<rb>, <k>`, ` <k>`, or nothing, with `k` written in decimal. -/
def operand_text (s : operands) (ra rb : Nat) (k : Int) : List Char :=
  match s with
  | OPERANDS_RA_RB => " ".toList ++ reg_token ra ++ ", ".toList ++ reg_token rb
  | OPERANDS_RB => " ".toList ++ reg_token rb
  | OPERANDS_RB_K => " ".toList ++ reg_token rb ++ ", ".toList ++ dec_literal k
  | OPERANDS_K => " ".toList ++ dec_literal k
  | OPERANDS_NONE => []

/-- The minimal valid line: a spelling of the mnemonic and the operand text of
its shape. -/
def minimal_line (sp : List Char) (s : operands) (ra rb : Nat) (k : Int) : List Char :=
  sp ++ operand_text s ra rb k

/-- The opcode byte the specification documents for an encoded line: the
opcode base OR-ed with the register fields of its shape. -/
def expected_opcode (b : Nat) (s : operands) (ra rb : Nat) : Nat :=
  match s with
  | OPERANDS_RA_RB => b ||| (ra <<< 2) ||| rb
  | OPERANDS_RB => b ||| rb
  | OPERANDS_RB_K => b ||| rb
  | OPERANDS_K => b
  | OPERANDS_NONE => b

/-- Number of bytes an instruction of the given shape occupies. -/
def width (s : operands) : Nat :=
  match s with
  | OPERANDS_RB_K => 2
  | OPERANDS_K => 2
  | _ => 1

/-- The instruction table as the specification prints it (section 4.1), left
column first. -/
def spec_table : List instruction :=
  [ ⟨"ADD".toList, 0x80, OPERANDS_RA_RB⟩, ⟨"SHR".toList, 0x90, OPERANDS_RA_RB⟩,
    ⟨"SHL".toList, 0xa0, OPERANDS_RA_RB⟩, ⟨"NOT".toList, 0xb0, OPERANDS_RA_RB⟩,
    ⟨"AND".toList, 0xc0, OPERANDS_RA_RB⟩, ⟨"OR".toList, 0xd0, OPERANDS_RA_RB⟩,
    ⟨"XOR".toList, 0xe0, OPERANDS_RA_RB⟩, ⟨"CMP".toList, 0xf0, OPERANDS_RA_RB⟩,
    ⟨"LD".toList, 0x00, OPERANDS_RA_RB⟩, ⟨"ST".toList, 0x10, OPERANDS_RA_RB⟩,
    ⟨"DATA".toList, 0x20, OPERANDS_RB_K⟩, ⟨"JMPR".toList, 0x30, OPERANDS_RB⟩,
    ⟨"JMP".toList, 0x40, OPERANDS_K⟩, ⟨"JC".toList, 0x58, OPERANDS_K⟩,
    ⟨"JA".toList, 0x54, OPERANDS_K⟩,
    ⟨"JE".toList, 0x52, OPERANDS_K⟩, ⟨"JZ".toList, 0x51, OPERANDS_K⟩,
    ⟨"JCA".toList, 0x5c, OPERANDS_K⟩, ⟨"JCE".toList, 0x5a, OPERANDS_K⟩,
    ⟨"JCZ".toList, 0x59, OPERANDS_K⟩, ⟨"JAE".toList, 0x56, OPERANDS_K⟩,
    ⟨"JAZ".toList, 0x55, OPERANDS_K⟩, ⟨"JEZ".toList, 0x53, OPERANDS_K⟩,
    ⟨"JCAE".toList, 0x5e, OPERANDS_K⟩, ⟨"JCAZ".toList, 0x5d, OPERANDS_K⟩,
    ⟨"JCEZ".toList, 0x5b, OPERANDS_K⟩, ⟨"JAEZ".toList, 0x57, OPERANDS_K⟩,
    ⟨"JCAEZ".toList, 0x5f, OPERANDS_K⟩, ⟨"CLF".toList, 0x60, OPERANDS_NONE⟩,
    ⟨"IND".toList, 0x70, OPERANDS_RB⟩, ⟨"INA".toList, 0x74, OPERANDS_RB⟩,
    ⟨"OUTD".toList, 0x78, OPERANDS_RB⟩, ⟨"OUTA".toList, 0x7c, OPERANDS_RB⟩ ]

/-- The tokens the register injectors accept: exactly `r0`, `r1`, `r2`, `r3`. -/
def reg_ok (p : List Char) : Bool :=
  p = "r0".toList || p = "r1".toList || p = "r2".toList || p = "r3".toList

/-- The constant of the token passes the range test of `parse_constant`. -/
def const_ok (p : List Char) : Bool :=
  decide (-128 ≤ constant_value p) && decide (constant_value p ≤ 255)

/-- Whether the operand text after the mnemonic has the tokens its shape asks
for: the result code of `parse_operands` when the image has room. -/
def operands_ok (inst : instruction) (rest : List Char) : Bool :=
  match inst.nops with
  | OPERANDS_RA_RB =>
    match strtok " ,\t\n".toList rest with
    | none => false
    | some (pa, rest1) =>
      reg_ok pa &&
        (match strtok " ,\t\n".toList rest1 with
         | none => false
         | some (pb, _) => reg_ok pb)
  | OPERANDS_RB =>
    match strtok " \t\n".toList rest with
    | none => false
    | some (pb, _) => reg_ok pb
  | OPERANDS_RB_K =>
    match strtok " ,\t\n".toList rest with
    | none => false
    | some (pb, rest1) =>
      reg_ok pb &&
        (match strtok " ,\t\n".toList rest1 with
         | none => false
         | some (pk, _) => const_ok pk)
  | OPERANDS_K =>
    match strtok " \t\n".toList rest with
    | none => false
    | some (pk, _) => const_ok pk
  | OPERANDS_NONE => true

/-- A line as `getline` delivers it: it ends with its newline and has no other. -/
def is_text_line (l : List Char) : Prop := l.getLast? = some '\n' ∧ '\n' ∉ l.dropLast

/-- A valid instruction line and its size: the first token names a table row,
and on an empty image (cursor 0) `parse_line` accepts the line; the size is
the number of bytes it emits there. -/
def instr_size (line : List Char) : Option Nat :=
  match strtok " \t\n".toList (strip_comment (cstr line)) with
  | none => none
  | some (t, _) =>
    match lookup (t.map toupper) instructions with
    | none => none
    | some _ =>
      if (parse_line line 1 ⟨fun _ => 0, 0, ""⟩).1 = 0 then
        some (parse_line line 1 ⟨fun _ => 0, 0, ""⟩).2.pos
      else none

/-- A valid PAD line and its byte count `K`: the first token is `PAD`, the next
is a constant in range, and `K` is the byte of that constant. -/
def pad_count (line : List Char) : Option Nat :=
  match strtok " \t\n".toList (strip_comment (cstr line)) with
  | none => none
  | some (t, rest) =>
    if t.map toupper = "PAD".toList then
      match strtok " \t\n".toList rest with
      | none => none
      | some (kt, _) =>
        if -128 ≤ constant_value kt ∧ constant_value kt ≤ 255 then
          some (constant_value kt % 256).toNat
        else none
    else none

/-- Total number of bytes of a list of instruction lines. -/
def total_size (ls : List (List Char)) : Nat := (ls.map (fun l => (instr_size l).getD 0)).sum

/-- A line that is blank before its first `;`: only spaces, tabs and newlines. -/
def is_blank_line (l : List Char) : Prop :=
  ∀ c ∈ l.takeWhile (fun x => decide (x ≠ ';')), c = ' ' ∨ c = '\t' ∨ c = '\n'

/-- The register number of a register token: 1, 2, 3 for `r1`, `r2`, `r3`, and 0
for `r0` (the injectors leave the byte as it is for `r0`). -/
def reg_number (p : List Char) : Nat :=
  if p = "r1".toList then 1 else if p = "r2".toList then 2 else if p = "r3".toList then 3 else 0

/-- The six fixed reason strings of the diagnostics. -/
def reasons : List String :=
  [ "Invalid register",
    "Invalid operand size (constant must fit in one byte)",
    "Resulting file too large - output file size limit: 256 bytes",
    "Invalid combination of operands for directive",
    "Invalid combination of operands",
    "Invalid instruction mnemonic" ]

/-- Every line of the list is accepted (`parse_line` does not return -1) when
the lines are fed one after the other, numbered from `n`, starting in `st`. -/
def all_accepted : List (List Char) → Nat → State → Prop
  | [], _, _ => True
  | l :: ls, n, st => (parse_line l n st).1 ≠ -1 ∧ all_accepted ls (n + 1) (parse_line l n st).2

/-- The state the lines of the list leave behind when fed one after the other,
numbered from `n`, starting in `st`. -/
def state_after : List (List Char) → Nat → State → State
  | [], _, st => st
  | l :: ls, n, st => state_after ls (n + 1) (parse_line l n st).2

/-- The four register names. -/
def register_names : List (List Char) :=
  ["r0".toList, "r1".toList, "r2".toList, "r3".toList]

/-- The line `PAD <k>` with `k` written in decimal. -/
def pad_line (k : Int) : List Char := "PAD ".toList ++ dec_literal k

/-- The character is one of the hexadecimal digits `0-9`, `a-f`, `A-F`. -/
def is_hex_digit (c : Char) : Prop := toupper c ∈ "0123456789ABCDEF".toList

/-- The value of a hexadecimal digit. -/
def hex_digit (c : Char) : Nat := "0123456789ABCDEF".toList.indexOf (toupper c)

/-- The value of a text of hexadecimal digits, most significant first. -/
def hex_value (ds : List Char) : Nat := ds.foldl (fun acc c => acc * 16 + hex_digit c) 0

/-- The register operand tokens `parse_line` reads after the mnemonic: two for
RA_RB, one for RB and RB_K, none otherwise (fewer when the text runs out). -/
def register_operands (inst : instruction) (rest : List Char) : List (List Char) :=
  match inst.nops with
  | OPERANDS_RA_RB =>
    match strtok " ,\t\n".toList rest with
    | none => []
    | some (pa, rest1) =>
      match strtok " ,\t\n".toList rest1 with
      | none => [pa]
      | some (pb, _) => [pa, pb]
  | OPERANDS_RB =>
    match strtok " \t\n".toList rest with
    | none => []
    | some (pb, _) => [pb]
  | OPERANDS_RB_K =>
    match strtok " ,\t\n".toList rest with
    | none => []
    | some (pb, _) => [pb]
  | _ => []

/-- The register operands of a shape, picked from a pair of tokens. -/
def regs_for (s : operands) (pa pb : List Char) : List (List Char) :=
  match s with
  | OPERANDS_RA_RB => [pa, pb]
  | OPERANDS_RB => [pb]
  | OPERANDS_RB_K => [pb]
  | _ => []

/-- The opcode byte of a row with the given register operands: the base OR-ed
with `ra << 2` and `rb`. -/
def encode (inst : instruction) (regs : List (List Char)) : Nat :=
  match inst.nops, regs with
  | OPERANDS_RA_RB, [pa, pb] => inst.opcode ||| (reg_number pa <<< 2) ||| reg_number pb
  | OPERANDS_RB, [pb] => inst.opcode ||| reg_number pb
  | OPERANDS_RB_K, [pb] => inst.opcode ||| reg_number pb
  | _, _ => inst.opcode

/-- Number of opcode bytes a row can produce: 16 for RA_RB, 4 for RB and RB_K,
1 otherwise. -/
def span (s : operands) : Nat :=
  match s with
  | OPERANDS_RA_RB => 16
  | OPERANDS_RB => 4
  | OPERANDS_RB_K => 4
  | _ => 1

/-- The row whose opcode range holds the byte, and the register operands read
back from the low bits of the byte. -/
def decode (b : Nat) : Option (instruction × List (List Char)) :=
  match instructions.find? (fun e => decide (e.opcode ≤ b) && decide (b < e.opcode + span e.nops)) with
  | none => none
  | some e =>
    some (e, match e.nops with
      | OPERANDS_RA_RB => [reg_token (b / 4 % 4), reg_token (b % 4)]
      | OPERANDS_RB => [reg_token (b % 4)]
      | OPERANDS_RB_K => [reg_token (b % 4)]
      | _ => [])

/-! ## Basic facts about the helpers -/

theorem check_output_length_fst (n p : Nat) (e : String) :
    (check_output_length n p e).1 = if 256 ≤ p then -1 else 0 := by
  unfold check_output_length OUT_LEN
  split <;> rfl

theorem check_output_length_snd_of_lt (n p : Nat) (e : String) (h : p < 256) :
    (check_output_length n p e).2 = e := by
  unfold check_output_length OUT_LEN
  rw [if_neg (by omega)]

theorem check_output_length_snd_of_ge (n p : Nat) (e : String) (h : 256 ≤ p) :
    (check_output_length n p e).2 =
      toString n ++ ": Resulting file too large - output file size limit: 256 bytes" := by
  unfold check_output_length OUT_LEN
  rw [if_pos (by omega)]
  show _ = toString n ++ ": Resulting file too large - output file size limit: 256 bytes"
  have h1 : toString 256 = "256" := by decide
  rw [h1]
  simp only [String.append_assoc]
  rfl

/-- The cursor never moves backwards and never passes the capacity. -/
theorem parse_line_pos_bounds (line : List Char) (n : Nat) (st : State) :
    st.pos ≤ (parse_line line n st).2.pos ∧
      (st.pos ≤ 256 → (parse_line line n st).2.pos ≤ 256) := by
  unfold parse_line parse_pad parse_operands
  simp only [check_output_length_fst]
  constructor
  · repeat' split
    all_goals (try simp)
    all_goals omega
  · intro h
    repeat' split
    all_goals simp_all
    all_goals omega

theorem feed_pos_le (calls : List (List Char × Nat)) (st : State) (h : st.pos ≤ 256) :
    (feed calls st).pos ≤ 256 := by
  induction calls generalizing st with
  | nil => exact h
  | cons c cs ih =>
    exact ih _ ((parse_line_pos_bounds c.1 c.2 st).2 h)

theorem parse_lines_pos_le (ls : List (List Char)) (n : Nat) (res : Int) (st : State)
    (h : st.pos ≤ 256) : (parse_lines ls n res st).2.pos ≤ 256 := by
  induction ls generalizing n res st with
  | nil => exact h
  | cons l more ih =>
    unfold parse_lines
    simp only
    split
    · exact (parse_line_pos_bounds l n st).2 h
    · exact ih _ _ _ ((parse_line_pos_bounds l n st).2 h)

theorem strtok_blank (line : List Char)
    (h : ∀ c ∈ line, c = ' ' ∨ c = '\t' ∨ c = '\n') :
    strtok " \t\n".toList line = none := by
  induction line with
  | nil => rfl
  | cons c cs ih =>
    have hc : c ∈ " \t\n".toList := by
      rcases h c (List.mem_cons_self _ _) with h1 | h1 | h1 <;> subst h1 <;> decide
    unfold strtok
    rw [if_pos hc]
    exact ih (fun d hd => h d (List.mem_cons_of_mem _ hd))

theorem strip_comment_cstr_mem (line : List Char) (c : Char)
    (h : c ∈ strip_comment (cstr line)) : c ∈ line.takeWhile (fun x => decide (x ≠ ';')) := by
  induction line with
  | nil => simp [cstr, strip_comment] at h
  | cons d ds ih =>
    unfold cstr at h
    split at h
    · simp [strip_comment] at h
    · unfold strip_comment at h
      split at h
      · simp at h
      · rename_i h2
        rw [List.takeWhile_cons, if_pos (by simpa using h2)]
        rcases List.mem_cons.1 h with h3 | h3
        · exact h3 ▸ List.mem_cons_self _ _
        · exact List.mem_cons_of_mem _ (ih h3)

theorem parse_constant_eq (p : List Char) (n b : Nat) (e : String) :
    parse_constant p n b e =
      if constant_value p < -128 ∨ constant_value p > 255 then
        (-1, b, errfmt n "Invalid operand size (constant must fit in one byte)")
      else (0, (constant_value p % 256).toNat, e) := by
  unfold parse_constant
  simp only
  split
  · rfl
  · rename_i h
    have h1 : (constant_value p % 256) = if constant_value p < 0 then constant_value p + 256
        else constant_value p := by
      split <;> omega
    rw [h1]
    split <;> rfl

theorem parse_line_pad (line t rest : List Char) (n : Nat) (st : State)
    (ht : strtok " \t\n".toList (strip_comment (cstr line)) = some (t, rest))
    (hpad : t.map toupper = "PAD".toList) :
    parse_line line n st = parse_pad rest n st := by
  unfold parse_line
  rw [ht]
  simp only
  rw [if_pos hpad]

/-- The PAD branch either fails without touching image or cursor, or its
operand is a constant in range whose byte `K` satisfies `pos + K < 256`, and
then `K` bytes are zeroed and the cursor advances by `K`. -/
theorem parse_pad_cases (rest : List Char) (n : Nat) (st : State) :
    ((parse_pad rest n st).1 = -1 ∧ (parse_pad rest n st).2.out = st.out ∧
        (parse_pad rest n st).2.pos = st.pos) ∨
    ∃ kt rest1, strtok " \t\n".toList rest = some (kt, rest1) ∧
      -128 ≤ constant_value kt ∧ constant_value kt ≤ 255 ∧
      st.pos + (constant_value kt % 256).toNat < 256 ∧
      parse_pad rest n st =
        (0, ⟨memset0 st.out st.pos (constant_value kt % 256).toNat,
          st.pos + (constant_value kt % 256).toNat, st.errstr⟩) := by
  unfold parse_pad
  split
  · left; simp
  · rename_i kt rest1 hk
    simp only [parse_constant_eq, check_output_length_fst]
    by_cases hr : constant_value kt < -128 ∨ constant_value kt > 255
    · left; simp [hr]
    · by_cases hc : 256 ≤ st.pos + (constant_value kt % 256).toNat
      · left; simp [hr, hc]
      · right
        refine ⟨kt, rest1, hk, by omega, by omega, by omega, ?_⟩
        simp [hr, hc, check_output_length_snd_of_lt _ _ _ (not_le.1 hc)]

theorem lookup_pad : lookup "PAD".toList instructions = none := by decide

/-- On a line whose first token names a table row, `parse_line` is the
capacity pre-check followed by the operand switch on the stored opcode. -/
theorem parse_line_instr (line t rest : List Char) (n : Nat) (st : State) (inst : instruction)
    (ht : strtok " \t\n".toList (strip_comment (cstr line)) = some (t, rest))
    (hl : lookup (t.map toupper) instructions = some inst) :
    parse_line line n st =
      if 256 ≤ st.pos then
        (-1, ⟨st.out, st.pos,
          toString n ++ ": Resulting file too large - output file size limit: 256 bytes"⟩)
      else parse_operands inst rest n { st with out := poke st.out st.pos inst.opcode } := by
  have hp : t.map toupper ≠ "PAD".toList := by
    intro h
    rw [h, lookup_pad] at hl
    exact absurd hl (by simp)
  unfold parse_line
  rw [ht]
  simp only
  rw [if_neg hp, hl, check_output_length_fst]
  by_cases hc : 256 ≤ st.pos
  · simp [hc, check_output_length_snd_of_ge _ _ _ hc]
  · simp [hc, check_output_length_snd_of_lt _ _ _ (not_le.1 hc)]

theorem digit_value_digitChar (d : Nat) (h : d < 16) : digit_value (Nat.digitChar d) = some d := by
  interval_cases d <;> rfl

theorem ite_step (P : Char → Prop) (c k u r : Char) (h1 : c = k → P u) (h2 : P r) :
    P (if c = k then u else r) := by
  by_cases h : c = k
  · rw [if_pos h]; exact h1 h
  · rw [if_neg h]; exact h2

theorem toupper_cases (c : Char) : toupper c = c ∨ (c, toupper c) ∈ lower_upper := by
  unfold toupper
  iterate 26
    refine ite_step (fun x => x = c ∨ (c, x) ∈ lower_upper) c _ _ _
      (fun h => by subst h; decide) ?_
  exact Or.inl rfl

theorem digit_value_toupper (c : Char) : digit_value (toupper c) = digit_value c := by
  rcases toupper_cases c with h | h
  · rw [h]
  · have key : ∀ p ∈ lower_upper, digit_value p.2 = digit_value p.1 := by decide
    exact key _ h

theorem lead_digitChar (d : Nat) (h0 : 0 < d) (h : d < 16) :
    lead (Nat.digitChar d) ∧ lead (toupper (Nat.digitChar d)) := by
  interval_cases d <;> exact ⟨by unfold lead; decide, by unfold lead; decide⟩

theorem strtol_digits_snoc (base : Nat) (l : List Char) (c : Char) (d acc : Nat)
    (hl : digits_ok base l) (hc : digit_value c = some d) (hd : d < base) :
    strtol_digits base (l ++ [c]) acc = strtol_digits base l acc * base + d := by
  induction l generalizing acc with
  | nil => simp [strtol_digits, hc, hd]
  | cons x xs ih =>
    obtain ⟨dx, hdx, hx⟩ := hl x (List.mem_cons_self _ _)
    have hxs : digits_ok base xs := fun y hy => hl y (List.mem_cons_of_mem _ hy)
    simp only [List.cons_append, strtol_digits, hx, if_pos hdx]
    exact ih _ hxs

theorem strtol_digits_map_toupper (base : Nat) (l : List Char) (acc : Nat) :
    strtol_digits base (l.map toupper) acc = strtol_digits base l acc := by
  induction l generalizing acc with
  | nil => rfl
  | cons x xs ih =>
    simp only [List.map_cons, strtol_digits, digit_value_toupper]
    split
    · split
      · exact ih _
      · rfl
    · rfl

theorem literal_digits_spec (base : Nat) (hb : 2 ≤ base) (hb16 : base ≤ 16) :
    ∀ fuel n, n < fuel →
      digits_ok base (literal_digits base fuel n) ∧
      strtol_digits base (literal_digits base fuel n) 0 = n := by
  intro fuel
  induction fuel with
  | zero => intro n h; omega
  | succ f ih =>
    intro n hn
    unfold literal_digits
    split
    · rename_i hlt
      constructor
      · intro c hc
        rw [List.mem_singleton] at hc
        exact ⟨n, hlt, hc ▸ digit_value_digitChar n (by omega)⟩
      · simp [strtol_digits, digit_value_digitChar n (by omega), hlt]
    · rename_i hge
      have hdiv : n / base < f := by
        have : n / base < n := Nat.div_lt_self (by omega) (by omega)
        omega
      obtain ⟨h1, h2⟩ := ih (n / base) hdiv
      have hmod : n % base < base := Nat.mod_lt _ (by omega)
      constructor
      · intro c hc
        rcases List.mem_append.1 hc with hc | hc
        · exact h1 c hc
        · rw [List.mem_singleton] at hc
          exact ⟨n % base, hmod, hc ▸ digit_value_digitChar _ (by omega)⟩
      · rw [strtol_digits_snoc base _ _ (n % base) 0 h1 (digit_value_digitChar _ (by omega)) hmod,
          h2]
        exact Nat.div_add_mod' n base

theorem literal_digits_head (base : Nat) (hb : 2 ≤ base) :
    ∀ fuel n, n < fuel → 0 < n →
      ∃ d cs, 0 < d ∧ d < base ∧ literal_digits base fuel n = Nat.digitChar d :: cs := by
  intro fuel
  induction fuel with
  | zero => intro n h; omega
  | succ f ih =>
    intro n hn h0
    unfold literal_digits
    split
    · rename_i hlt
      exact ⟨n, [], h0, hlt, rfl⟩
    · rename_i hge
      have hdiv : n / base < f := by
        have : n / base < n := Nat.div_lt_self (by omega) (by omega)
        omega
      have hpos : 0 < n / base := Nat.div_pos (by omega) (by omega)
      obtain ⟨d, cs, hd0, hd, heq⟩ := ih (n / base) hdiv hpos
      exact ⟨d, cs ++ [Nat.digitChar (n % base)], hd0, hd, by rw [heq]; rfl⟩

theorem has_hex_prefix_lead (c : Char) (cs : List Char) (hc : c ≠ '0') :
    has_hex_prefix (c :: cs) = false := by
  unfold has_hex_prefix
  split
  · rename_i h
    simp only [List.cons.injEq] at h
    exact absurd h.1 hc
  · rfl

theorem strtol_lead (c : Char) (cs : List Char) (base : Nat) (hc : lead c) :
    strtol (c :: cs) base =
      min LONG_MAX (strtol_digits (if base = 0 then 10 else base) (c :: cs) 0 : Nat) := by
  obtain ⟨h0, hm, hp, hs⟩ := hc
  unfold strtol
  simp [List.dropWhile_cons, hs, hm, hp, h0, has_hex_prefix_lead c cs h0]

theorem strtol_neg_lead (c : Char) (cs : List Char) (base : Nat) (hc : lead c) :
    strtol ('-' :: c :: cs) base =
      max LONG_MIN (-((strtol_digits (if base = 0 then 10 else base) (c :: cs) 0 : Nat) : Int)) := by
  obtain ⟨h0, hm, hp, hs⟩ := hc
  unfold strtol
  simp [List.dropWhile_cons, isspace, h0, has_hex_prefix_lead c cs h0]

theorem literal_digits_chars (base : Nat) (hb : 2 ≤ base) :
    ∀ fuel n, ∀ c ∈ literal_digits base fuel n, ∃ d, d < base ∧ c = Nat.digitChar d := by
  intro fuel
  induction fuel with
  | zero => intro n c hc; simp [literal_digits] at hc
  | succ f ih =>
    intro n c hc
    unfold literal_digits at hc
    split at hc
    · rename_i hlt
      rw [List.mem_singleton] at hc
      exact ⟨n, hlt, hc⟩
    · rcases List.mem_append.1 hc with hc | hc
      · exact ih _ c hc
      · rw [List.mem_singleton] at hc
        exact ⟨n % base, Nat.mod_lt _ (by omega), hc⟩

theorem nat_literal_zero (b : Nat) (hb : 2 ≤ b) : nat_literal b 0 = ['0'] := by
  unfold nat_literal literal_digits
  rw [if_pos (by omega)]
  rfl

theorem strtol_int_literal (b sb : Nat)
    (hsb : (sb = 0 ∧ b = 10) ∨ (sb = 2 ∧ b = 2) ∨ (sb = 16 ∧ b = 16)) (k : Int) :
    strtol (int_literal b k) sb = saturate k ∧
    strtol ((int_literal b k).map toupper) sb = saturate k := by
  have hb2 : 2 ≤ b := by omega
  have hb16 : b ≤ 16 := by omega
  have hbase : (if sb = 0 then 10 else sb) = b := by
    rcases hsb with ⟨h1, h2⟩ | ⟨h1, h2⟩ | ⟨h1, h2⟩ <;> subst h1 <;> subst h2 <;> rfl
  by_cases hk0 : k = 0
  · subst hk0
    have : int_literal b 0 = ['0'] := by
      unfold int_literal
      rw [if_neg (by omega)]
      exact nat_literal_zero b hb2
    rw [this]
    rcases hsb with ⟨h1, _⟩ | ⟨h1, _⟩ | ⟨h1, _⟩ <;> subst h1 <;> exact ⟨by decide, by decide⟩
  · have hn : 0 < k.natAbs := Int.natAbs_pos.2 hk0
    obtain ⟨d, cs, hd0, hd, heq⟩ := literal_digits_head b hb2 (k.natAbs + 1) k.natAbs (by omega) hn
    have hval := (literal_digits_spec b hb2 hb16 (k.natAbs + 1) k.natAbs (by omega)).2
    have hl := lead_digitChar d hd0 (by omega)
    have hvalu : strtol_digits b (toupper (Nat.digitChar d) :: cs.map toupper) 0 = k.natAbs := by
      rw [← List.map_cons, strtol_digits_map_toupper, ← heq]
      exact hval
    rw [heq] at hval
    unfold int_literal nat_literal saturate
    rw [heq]
    by_cases hneg : k < 0
    · rw [if_pos hneg, if_pos hneg]
      have hm : toupper '-' = '-' := by decide
      rw [List.map_cons, List.map_cons, hm, strtol_neg_lead _ _ _ hl.1, strtol_neg_lead _ _ _ hl.2,
        hbase, hval, hvalu]
      have : -(k.natAbs : Int) = k := by omega
      rw [this]
      exact ⟨rfl, rfl⟩
    · rw [if_neg hneg, if_neg hneg]
      rw [List.map_cons, strtol_lead _ _ _ hl.1, strtol_lead _ _ _ hl.2, hbase, hval, hvalu]
      have : (k.natAbs : Int) = k := by omega
      rw [this]
      exact ⟨rfl, rfl⟩

theorem dec_literal_chars (k : Int) : ∀ c ∈ dec_literal k, c ∈ "-0123456789".toList := by
  have key : ∀ c ∈ nat_literal 10 k.natAbs, c ∈ "-0123456789".toList := by
    intro c hc
    obtain ⟨d, hd, rfl⟩ := literal_digits_chars 10 (by omega) _ _ c hc
    interval_cases d <;> decide
  intro c hc
  unfold dec_literal int_literal at hc
  split at hc
  · rcases List.mem_cons.1 hc with h | h
    · subst h; decide
    · exact key c h
  · exact key c hc

theorem constant_value_dec (k : Int) : constant_value (dec_literal k) = saturate k := by
  have hb : (dec_literal k).getLast? ≠ some 'b' := by
    intro h
    have := dec_literal_chars k _ (List.mem_of_getLast?_eq_some h)
    revert this; decide
  have hh : (dec_literal k).getLast? ≠ some 'h' := by
    intro h
    have := dec_literal_chars k _ (List.mem_of_getLast?_eq_some h)
    revert this; decide
  unfold constant_value
  rw [if_neg hb, if_neg hh]
  exact (strtol_int_literal 10 0 (Or.inl ⟨rfl, rfl⟩) k).1

theorem constant_value_bin (k : Int) : constant_value (bin_literal k) = saturate k := by
  unfold constant_value bin_literal
  rw [List.getLast?_concat, if_pos rfl, List.dropLast_concat]
  exact (strtol_int_literal 2 2 (Or.inr (Or.inl ⟨rfl, rfl⟩)) k).1

theorem constant_value_hex (k : Int) :
    constant_value (hex_literal k) = saturate k ∧
    constant_value (hex_literal_upper k) = saturate k := by
  unfold constant_value hex_literal hex_literal_upper
  rw [List.getLast?_concat, List.getLast?_concat, if_neg (by decide), if_pos rfl,
    List.dropLast_concat, List.dropLast_concat]
  exact strtol_int_literal 16 16 (Or.inr (Or.inr ⟨rfl, rfl⟩)) k

theorem saturate_range (k : Int) :
    (saturate k < -128 ∨ saturate k > 255 ↔ k < -128 ∨ k > 255) ∧
    (-128 ≤ k → k ≤ 255 → saturate k = k) := by
  have h1 : LONG_MAX = 9223372036854775807 := by decide
  have h2 : LONG_MIN = -9223372036854775808 := by decide
  unfold saturate
  rw [h1, h2]
  constructor
  · split <;> omega
  · intro _ _
    split <;> omega

theorem strtok_scan_token (d tok rest : List Char) (hnd : ∀ c ∈ tok, c ∉ d)
    (hrest : rest = [] ∨ ∃ c r, rest = c :: r ∧ c ∈ d) :
    strtok_scan d (tok ++ rest) = (tok, rest.tail) := by
  induction tok with
  | nil =>
    rcases hrest with h | ⟨c, r, h, hc⟩
    · subst h; rfl
    · subst h
      simp [strtok_scan, hc]
  | cons x xs ih =>
    have hx : x ∉ d := hnd x (List.mem_cons_self _ _)
    have := ih (fun c hc => hnd c (List.mem_cons_of_mem _ hc))
    rw [List.cons_append]
    unfold strtok_scan
    rw [if_neg hx, this]

theorem strtok_token (d tok rest : List Char) (hne : tok ≠ []) (hnd : ∀ c ∈ tok, c ∉ d)
    (hrest : rest = [] ∨ ∃ c r, rest = c :: r ∧ c ∈ d) :
    strtok d (tok ++ rest) = some (tok, rest.tail) := by
  cases tok with
  | nil => exact absurd rfl hne
  | cons x xs =>
    have hx : x ∉ d := hnd x (List.mem_cons_self _ _)
    rw [List.cons_append]
    unfold strtok
    rw [if_neg hx, ← List.cons_append, strtok_scan_token d (x :: xs) rest hnd hrest]

theorem strip_comment_cstr_id (l : List Char) (h : ∀ c ∈ l, c ≠ '\x00' ∧ c ≠ ';') :
    strip_comment (cstr l) = l := by
  induction l with
  | nil => rfl
  | cons x xs ih =>
    have hx := h x (List.mem_cons_self _ _)
    simp only [cstr, if_neg hx.1, strip_comment, if_neg hx.2,
      ih (fun c hc => h c (List.mem_cons_of_mem _ hc))]

theorem spelling_letters (sp m : List Char) (hsp : sp.map toupper = m)
    (hm : ∀ x ∈ m, x ∈ "ABCDEFGHIJKLMNOPQRSTUVWXYZ".toList) : ∀ c ∈ sp, c ∈ letters := by
  intro c hc
  have h1 : toupper c ∈ "ABCDEFGHIJKLMNOPQRSTUVWXYZ".toList :=
    hm _ (hsp ▸ List.mem_map_of_mem toupper hc)
  rcases toupper_cases c with h | h
  · rw [h] at h1
    have key : ∀ x ∈ "ABCDEFGHIJKLMNOPQRSTUVWXYZ".toList, x ∈ letters := by decide
    exact key c h1
  · have key : ∀ p ∈ lower_upper, p.1 ∈ letters := by decide
    exact key _ h

theorem spec_table_facts : spec_table.length = 33 ∧ ∀ e ∈ spec_table,
    lookup e.mnemonic instructions = some e ∧ e.mnemonic ≠ [] ∧
    ∀ x ∈ e.mnemonic, x ∈ "ABCDEFGHIJKLMNOPQRSTUVWXYZ".toList := by
  decide

theorem dec_literal_ne_nil (k : Int) : dec_literal k ≠ [] := by
  unfold dec_literal int_literal nat_literal literal_digits
  split
  · simp
  · split <;> simp

theorem operand_text_chars (s : operands) (ra rb : Nat) (hra : ra < 4) (hrb : rb < 4) (k : Int)
    (nl : List Char) (hnl : nl = [] ∨ nl = ['\n']) :
    ∀ c ∈ operand_text s ra rb k ++ nl, c ∈ " ,r-0123456789\n".toList := by
  have hk : ∀ c ∈ dec_literal k, c ∈ " ,r-0123456789\n".toList := by
    intro c hc
    have key : ∀ x ∈ "-0123456789".toList, x ∈ " ,r-0123456789\n".toList := by decide
    exact key c (dec_literal_chars k c hc)
  have hr : ∀ r, r < 4 → ∀ c ∈ reg_token r, c ∈ " ,r-0123456789\n".toList := by
    intro r h
    interval_cases r <;> decide
  have hn : ∀ c ∈ nl, c ∈ " ,r-0123456789\n".toList := by
    rcases hnl with h | h <;> subst h <;> decide
  have hs : ∀ c ∈ " ".toList, c ∈ " ,r-0123456789\n".toList := by decide
  have hc : ∀ c ∈ ", ".toList, c ∈ " ,r-0123456789\n".toList := by decide
  intro c hmem
  unfold operand_text at hmem
  cases s <;> simp only [List.mem_append] at hmem
  · rcases hmem with (((h | h) | h) | h) | h
    · exact hs c h
    · exact hr ra hra c h
    · exact hc c h
    · exact hr rb hrb c h
    · exact hn c h
  · rcases hmem with (h | h) | h
    · exact hs c h
    · exact hr rb hrb c h
    · exact hn c h
  · rcases hmem with (((h | h) | h) | h) | h
    · exact hs c h
    · exact hr rb hrb c h
    · exact hc c h
    · exact hk c h
    · exact hn c h
  · rcases hmem with (h | h) | h
    · exact hs c h
    · exact hk c h
    · exact hn c h
  · rcases hmem with h | h
    · simp at h
    · exact hn c h

theorem parse_line_minimal (e : instruction) (he : e ∈ spec_table) (sp : List Char)
    (hsp : sp.map toupper = e.mnemonic) (ra rb : Nat) (hra : ra < 4) (hrb : rb < 4) (k : Int)
    (nl : List Char) (hnl : nl = [] ∨ nl = ['\n']) (n : Nat) (st : State)
    (hroom : st.pos < 256) :
    parse_line (minimal_line sp e.nops ra rb k ++ nl) n st =
      parse_operands e (operand_text e.nops ra rb k ++ nl).tail n
        { st with out := poke st.out st.pos e.opcode } := by
  obtain ⟨hl, hne, hup⟩ := spec_table_facts.2 e he
  have hlet := spelling_letters sp e.mnemonic hsp hup
  have hspne : sp ≠ [] := by
    intro h
    rw [h] at hsp
    exact hne hsp.symm
  have hline : minimal_line sp e.nops ra rb k ++ nl = sp ++ (operand_text e.nops ra rb k ++ nl) := by
    unfold minimal_line
    rw [List.append_assoc]
  have hclean : ∀ c ∈ sp ++ (operand_text e.nops ra rb k ++ nl), c ≠ '\x00' ∧ c ≠ ';' := by
    intro c hc
    rcases List.mem_append.1 hc with h | h
    · have key : ∀ x ∈ letters, x ≠ '\x00' ∧ x ≠ ';' := by decide
      exact key c (hlet c h)
    · have key : ∀ x ∈ " ,r-0123456789\n".toList, x ≠ '\x00' ∧ x ≠ ';' := by decide
      exact key c (operand_text_chars e.nops ra rb hra hrb k nl hnl c h)
  have hnd : ∀ c ∈ sp, c ∉ " \t\n".toList := by
    intro c hc
    have key : ∀ x ∈ letters, x ∉ " \t\n".toList := by decide
    exact key c (hlet c hc)
  have hrest : operand_text e.nops ra rb k ++ nl = [] ∨
      ∃ c r, operand_text e.nops ra rb k ++ nl = c :: r ∧ c ∈ " \t\n".toList := by
    unfold operand_text
    cases e.nops
    case OPERANDS_NONE =>
      rcases hnl with h | h <;> subst h
      · exact Or.inl rfl
      · exact Or.inr ⟨_, _, rfl, by decide⟩
    all_goals exact Or.inr ⟨_, _, rfl, by decide⟩
  have ht : strtok " \t\n".toList (strip_comment (cstr (minimal_line sp e.nops ra rb k ++ nl))) =
      some (sp, (operand_text e.nops ra rb k ++ nl).tail) := by
    rw [hline, strip_comment_cstr_id _ hclean]
    exact strtok_token _ sp _ hspne hnd hrest
  rw [parse_line_instr _ sp _ n st e ht (hsp ▸ hl), if_neg (by omega)]

theorem inject_ra_fst (p : List Char) (n b : Nat) (e : String) :
    (inject_ra p n b e).1 = if reg_ok p then 0 else -1 := by
  unfold inject_ra reg_ok
  by_cases h1 : p = ['r', '1']
  · simp [h1]
  by_cases h2 : p = ['r', '2']
  · simp [h2]
  by_cases h3 : p = ['r', '3']
  · simp [h3]
  by_cases h0 : p = ['r', '0']
  · simp [h0]
  simp [h0, h1, h2, h3]

theorem inject_rb_fst (p : List Char) (n b : Nat) (e : String) :
    (inject_rb p n b e).1 = if reg_ok p then 0 else -1 := by
  unfold inject_rb reg_ok
  by_cases h1 : p = ['r', '1']
  · simp [h1]
  by_cases h2 : p = ['r', '2']
  · simp [h2]
  by_cases h3 : p = ['r', '3']
  · simp [h3]
  by_cases h0 : p = ['r', '0']
  · simp [h0]
  simp [h0, h1, h2, h3]

theorem parse_constant_fst (p : List Char) (n b : Nat) (e : String) :
    (parse_constant p n b e).1 = if const_ok p then 0 else -1 := by
  rw [parse_constant_eq]
  unfold const_ok
  by_cases h : constant_value p < -128 ∨ constant_value p > 255
  · rw [if_pos h]
    have : ¬ (-128 ≤ constant_value p ∧ constant_value p ≤ 255) := by omega
    simp [this]
  · rw [if_neg h]
    have : -128 ≤ constant_value p ∧ constant_value p ≤ 255 := by omega
    simp [this]

theorem parse_operands_spec (inst : instruction) (rest : List Char) (n : Nat) (st : State)
    (hroom : st.pos + width inst.nops ≤ 256) :
    (parse_operands inst rest n st).1 = (if operands_ok inst rest then 0 else -1) ∧
    (operands_ok inst rest = true →
      (parse_operands inst rest n st).2.pos = st.pos + width inst.nops) := by
  unfold parse_operands operands_ok
  cases hs : inst.nops <;> rw [hs] at hroom <;> simp only [width] at hroom <;>
    simp only [check_output_length_fst, inject_ra_fst, inject_rb_fst, parse_constant_fst, width]
  all_goals
    repeat' split
    all_goals simp_all
  all_goals omega

theorem getlines_cons_ne (c : Char) (cs : List Char) (hc : c ≠ '\n') :
    getlines (c :: cs) =
      (match getlines cs with
       | [] => [[c]]
       | l :: ls => (c :: l) :: ls) := by
  simp only [getlines, if_neg hc]

theorem getlines_line (body rest : List Char) (h : '\n' ∉ body) :
    getlines (body ++ '\n' :: rest) = (body ++ ['\n']) :: getlines rest := by
  induction body with
  | nil => simp [getlines]
  | cons c cs ih =>
    have hc : c ≠ '\n' := fun e => h (e ▸ List.mem_cons_self _ _)
    have := ih (fun e => h (List.mem_cons_of_mem _ e))
    rw [List.cons_append, getlines_cons_ne c _ hc, this]
    rfl

theorem getlines_last (body : List Char) (h : '\n' ∉ body) (hne : body ≠ []) :
    getlines body = [body] := by
  induction body with
  | nil => exact absurd rfl hne
  | cons c cs ih =>
    have hc : c ≠ '\n' := fun e => h (e ▸ List.mem_cons_self _ _)
    rw [getlines_cons_ne c _ hc]
    cases cs with
    | nil => rfl
    | cons d ds =>
      rw [ih (fun e => h (List.mem_cons_of_mem _ e)) (by simp)]

theorem text_line_split (l : List Char) (h : is_text_line l) :
    ∃ body, l = body ++ ['\n'] ∧ '\n' ∉ body := by
  obtain ⟨h1, h2⟩ := h
  obtain ⟨ys, hys⟩ := List.getLast?_eq_some_iff.1 h1
  subst hys
  rw [List.dropLast_concat] at h2
  exact ⟨ys, rfl, h2⟩

theorem getlines_flatten (ls : List (List Char)) (h : ∀ l ∈ ls, is_text_line l)
    (tail : List Char) : getlines (ls.flatten ++ tail) = ls ++ getlines tail := by
  induction ls with
  | nil => rfl
  | cons l more ih =>
    obtain ⟨body, h1, h2⟩ := text_line_split l (h l (List.mem_cons_self _ _))
    subst h1
    rw [List.flatten_cons, List.append_assoc, List.append_assoc, List.singleton_append,
      getlines_line _ _ h2, ih (fun x hx => h x (List.mem_cons_of_mem _ hx))]
    rfl

theorem getlines_extra (extra : List Char) (hne : extra ≠ []) (h : '\n' ∉ extra.dropLast) :
    getlines extra = [extra] := by
  obtain ⟨ys, hys⟩ := List.getLast?_eq_some_iff.1
    (show extra.getLast? = some (extra.getLast hne) from List.getLast?_eq_getLast _ hne)
  generalize extra.getLast hne = c at hys
  subst hys
  rw [List.dropLast_concat] at h
  by_cases hc : c = '\n'
  · subst hc
    have := getlines_line ys [] h
    simpa [getlines] using this
  · apply getlines_last _ _ hne
    intro hmem
    rcases List.mem_append.1 hmem with h3 | h3
    · exact h h3
    · rw [List.mem_singleton] at h3
      exact hc h3.symm

theorem width_bounds (s : operands) : 1 ≤ width s ∧ width s ≤ 2 := by
  cases s <;> simp [width]

theorem instr_size_spec (l : List Char) (k : Nat) (h : instr_size l = some k) :
    1 ≤ k ∧
    (∀ n st, st.pos + k ≤ 256 →
      (parse_line l n st).1 = 0 ∧ (parse_line l n st).2.pos = st.pos + k) ∧
    (∀ n st, 256 ≤ st.pos →
      (parse_line l n st).1 = -1 ∧ (parse_line l n st).2.errstr =
        toString n ++ ": Resulting file too large - output file size limit: 256 bytes") := by
  unfold instr_size at h
  split at h
  · exact absurd h (by simp)
  rename_i t rest ht
  split at h
  · exact absurd h (by simp)
  rename_i inst hl
  split at h
  swap
  · exact absurd h (by simp)
  rename_i h0
  have hw := width_bounds inst.nops
  have hz := parse_line_instr l t rest 1 ⟨fun _ => 0, 0, ""⟩ inst ht hl
  rw [if_neg (by simp)] at hz
  have hspec := parse_operands_spec inst rest 1
    ⟨poke (fun _ => 0) 0 inst.opcode, 0, ""⟩ (by simp only; omega)
  rw [hz] at h0 h
  have hok : operands_ok inst rest = true := by
    by_contra hno
    rw [hspec.1, if_neg hno] at h0
    exact absurd h0 (by decide)
  have hk : k = width inst.nops := by
    have := hspec.2 hok
    simp only [Option.some.injEq] at h
    rw [← h, this]
    simp
  subst hk
  refine ⟨hw.1, ?_, ?_⟩
  · intro n st hroom
    rw [parse_line_instr l t rest n st inst ht hl, if_neg (by omega)]
    have hs := parse_operands_spec inst rest n
      { st with out := poke st.out st.pos inst.opcode } hroom
    rw [hs.1, if_pos hok]
    exact ⟨rfl, hs.2 hok⟩
  · intro n st hfull
    rw [parse_line_instr l t rest n st inst ht hl, if_pos hfull]
    exact ⟨rfl, rfl⟩

theorem pad_count_spec (l : List Char) (K : Nat) (h : pad_count l = some K) (n : Nat)
    (st : State) (hfull : 256 ≤ st.pos + K) :
    (parse_line l n st).1 = -1 ∧ (parse_line l n st).2.errstr =
      toString n ++ ": Resulting file too large - output file size limit: 256 bytes" := by
  unfold pad_count at h
  split at h
  · exact absurd h (by simp)
  rename_i t rest ht
  split at h
  swap
  · exact absurd h (by simp)
  rename_i hpad
  split at h
  · exact absurd h (by simp)
  rename_i kt rest1 hk
  split at h
  swap
  · exact absurd h (by simp)
  rename_i hr
  simp only [Option.some.injEq] at h
  subst h
  rw [parse_line_pad l t rest n st ht hpad]
  unfold parse_pad
  rw [hk]
  have hr2 : ¬ (constant_value kt < -128 ∨ constant_value kt > 255) := by omega
  simp only [parse_constant_eq, if_neg hr2, check_output_length_fst, if_pos hfull]
  simp [check_output_length_snd_of_ge _ _ _ hfull]

theorem parse_lines_cons_ok (l : List Char) (more : List (List Char)) (n : Nat) (res : Int)
    (st : State) (h : (parse_line l n st).1 = 0) :
    parse_lines (l :: more) n res st = parse_lines more (n + 1) 0 (parse_line l n st).2 := by
  rw [parse_lines]
  simp only [h]
  rw [if_neg (by decide)]

theorem parse_lines_valid (ls more : List (List Char))
    (hv : ∀ l ∈ ls, (instr_size l).isSome) :
    ∀ (n : Nat) (res : Int) (st : State), st.pos + total_size ls ≤ 256 →
      ∃ res1 st1, st1.pos = st.pos + total_size ls ∧ (ls ≠ [] → res1 = 0) ∧
        (ls = [] → res1 = res) ∧
        parse_lines (ls ++ more) n res st = parse_lines more (n + ls.length) res1 st1 := by
  induction ls with
  | nil =>
    intro n res st _
    exact ⟨res, st, rfl, fun h => absurd rfl h, fun _ => rfl, rfl⟩
  | cons l rest ih =>
    intro n res st hroom
    obtain ⟨k, hk⟩ := Option.isSome_iff_exists.1 (hv l (List.mem_cons_self _ _))
    have htot : total_size (l :: rest) = k + total_size rest := by
      simp [total_size, hk]
    rw [htot] at hroom ⊢
    obtain ⟨_, hgo, _⟩ := instr_size_spec l k hk
    obtain ⟨h0, hp⟩ := hgo n st (by omega)
    obtain ⟨res1, st1, hpos, hres, hres0, heq⟩ :=
      ih (fun x hx => hv x (List.mem_cons_of_mem _ hx)) (n + 1) 0 (parse_line l n st).2
        (by rw [hp]; omega)
    have hr1 : res1 = 0 := by
      by_cases hr : rest = []
      · exact hres0 hr
      · exact hres hr
    refine ⟨res1, st1, by rw [hpos, hp]; omega, fun _ => hr1, ?_, ?_⟩
    · intro h; exact absurd h (by simp)
    · have hlen : n + (l :: rest).length = n + 1 + rest.length := by
        simp only [List.length_cons]; omega
      rw [List.cons_append, parse_lines_cons_ok l _ n res st h0, heq, hlen]

theorem parse_line_blank (line : List Char) (n : Nat) (st : State) (h : is_blank_line line) :
    parse_line line n st = (0, st) := by
  unfold parse_line
  rw [strtok_blank _ (fun c hc => h c (strip_comment_cstr_mem line c hc))]

theorem parse_lines_blank (ls : List (List Char)) (h : ∀ l ∈ ls, is_blank_line l) :
    ∀ (n : Nat) (res : Int) (st : State),
      parse_lines ls n res st = (if ls = [] then res else 0, st) := by
  induction ls with
  | nil => intro n res st; rfl
  | cons l more ih =>
    intro n res st
    rw [parse_lines]
    simp only [parse_line_blank l n st (h l (List.mem_cons_self _ _))]
    rw [if_neg (by decide), ih (fun x hx => h x (List.mem_cons_of_mem _ hx))]
    simp

theorem getlines_ne_nil (file : List Char) (h : file ≠ []) : getlines file ≠ [] := by
  cases file with
  | nil => exact absurd rfl h
  | cons c cs =>
    unfold getlines
    split
    · simp
    · split <;> simp

theorem errfmt_inj (n : Nat) (r1 r2 : String) (h : errfmt n r1 = errfmt n r2) : r1 = r2 := by
  unfold errfmt at h
  have h1 := congrArg String.data h
  rw [String.data_append, String.data_append] at h1
  exact String.ext (List.append_cancel_left h1)

theorem check_output_length_eq (n p : Nat) (e : String) :
    check_output_length n p e =
      if 256 ≤ p then
        (-1, errfmt n "Resulting file too large - output file size limit: 256 bytes")
      else (0, e) := by
  have h3 : errfmt n "Resulting file too large - output file size limit: 256 bytes" =
      toString n ++ ": Resulting file too large - output file size limit: 256 bytes" := by
    unfold errfmt
    rw [String.append_assoc]
    rfl
  by_cases h : 256 ≤ p
  · rw [if_pos h]
    exact Prod.ext (by rw [check_output_length_fst, if_pos h])
      (by rw [check_output_length_snd_of_ge _ _ _ h, h3])
  · rw [if_neg h]
    exact Prod.ext (by rw [check_output_length_fst, if_neg h])
      (check_output_length_snd_of_lt _ _ _ (by omega))

theorem inject_ra_eq (p : List Char) (n b : Nat) (e : String) :
    inject_ra p n b e =
      if reg_ok p then ((0 : Int), b ||| (reg_number p <<< 2), e)
      else (-1, b, errfmt n "Invalid register") := by
  unfold inject_ra reg_ok reg_number
  by_cases h1 : p = ['r', '1']
  · subst h1; simp
  by_cases h2 : p = ['r', '2']
  · subst h2; simp
  by_cases h3 : p = ['r', '3']
  · subst h3; simp
  by_cases h0 : p = ['r', '0']
  · subst h0; simp
  simp [h0, h1, h2, h3]

theorem inject_rb_eq (p : List Char) (n b : Nat) (e : String) :
    inject_rb p n b e =
      if reg_ok p then ((0 : Int), b ||| reg_number p, e)
      else (-1, b, errfmt n "Invalid register") := by
  unfold inject_rb reg_ok reg_number
  by_cases h1 : p = ['r', '1']
  · subst h1; simp
  by_cases h2 : p = ['r', '2']
  · subst h2; simp
  by_cases h3 : p = ['r', '3']
  · subst h3; simp
  by_cases h0 : p = ['r', '0']
  · subst h0; simp
  simp [h0, h1, h2, h3]

theorem parse_operands_result (inst : instruction) (rest : List Char) (n : Nat) (st : State) :
    (parse_operands inst rest n st).1 = 0 ∨
    ((parse_operands inst rest n st).1 = -1 ∧
      ((parse_operands inst rest n st).2.errstr = errfmt n "Invalid register" ∨
       (parse_operands inst rest n st).2.errstr =
          errfmt n "Invalid operand size (constant must fit in one byte)" ∨
       (parse_operands inst rest n st).2.errstr =
          errfmt n "Resulting file too large - output file size limit: 256 bytes" ∨
       (parse_operands inst rest n st).2.errstr = errfmt n "Invalid combination of operands")) := by
  unfold parse_operands
  simp only [check_output_length_eq, inject_ra_eq, inject_rb_eq, parse_constant_eq]
  repeat' split
  all_goals simp_all

theorem parse_pad_result (rest : List Char) (n : Nat) (st : State) :
    (parse_pad rest n st).1 = 0 ∨
    ((parse_pad rest n st).1 = -1 ∧
      ((parse_pad rest n st).2.errstr =
          errfmt n "Invalid operand size (constant must fit in one byte)" ∨
       (parse_pad rest n st).2.errstr =
          errfmt n "Resulting file too large - output file size limit: 256 bytes" ∨
       (parse_pad rest n st).2.errstr =
          errfmt n "Invalid combination of operands for directive")) := by
  unfold parse_pad
  simp only [check_output_length_eq, parse_constant_eq]
  repeat' split
  all_goals simp_all

theorem parse_line_result (line : List Char) (n : Nat) (st : State) :
    (parse_line line n st).1 = 0 ∨
    ((parse_line line n st).1 = -1 ∧
      ∃ r ∈ reasons, (parse_line line n st).2.errstr = errfmt n r) := by
  unfold parse_line
  split
  · exact Or.inl rfl
  · simp only
    split
    · rcases parse_pad_result _ n st with h | ⟨h, h1 | h1 | h1⟩
      · exact Or.inl h
      · exact Or.inr ⟨h, _, by decide, h1⟩
      · exact Or.inr ⟨h, _, by decide, h1⟩
      · exact Or.inr ⟨h, _, by decide, h1⟩
    · rw [check_output_length_eq]
      split
      · split
        · exact Or.inr ⟨rfl, _, by decide, rfl⟩
        · rename_i h; exact absurd h (by simp)
      · simp only
        rw [if_neg (by decide)]
        split
        · exact Or.inr ⟨rfl, _, by decide, rfl⟩
        · rcases parse_operands_result _ _ n _ with h | ⟨h, h1 | h1 | h1 | h1⟩
          · exact Or.inl h
          · exact Or.inr ⟨h, _, by decide, h1⟩
          · exact Or.inr ⟨h, _, by decide, h1⟩
          · exact Or.inr ⟨h, _, by decide, h1⟩
          · exact Or.inr ⟨h, _, by decide, h1⟩

theorem errfmt_append (n : Nat) (r : String) : errfmt n r = toString n ++ (": " ++ r) := by
  unfold errfmt
  rw [String.append_assoc]

theorem parse_lines_first_failure (pre : List (List Char)) (line : List Char)
    (post : List (List Char)) :
    ∀ (n : Nat) (res : Int) (st : State), all_accepted pre n st →
      (parse_line line (n + pre.length) (state_after pre n st)).1 = -1 →
      parse_lines (pre ++ line :: post) n res st =
        parse_line line (n + pre.length) (state_after pre n st) := by
  induction pre with
  | nil =>
    intro n res st _ hf
    rw [List.nil_append, parse_lines]
    simp only [List.length_nil, Nat.add_zero, state_after] at hf ⊢
    rw [if_pos hf]
  | cons l more ih =>
    intro n res st hacc hf
    obtain ⟨h1, h2⟩ := hacc
    have hlen : n + (l :: more).length = n + 1 + more.length := by
      simp only [List.length_cons]; omega
    rw [hlen] at hf ⊢
    rw [List.cons_append, parse_lines, if_neg h1]
    exact ih (n + 1) _ _ h2 hf

theorem lookup_none_iff (m : List Char) (l : List instruction) :
    lookup m l = none ↔ ∀ e ∈ l, e.mnemonic ≠ m := by
  induction l with
  | nil => simp [lookup]
  | cons i is ih =>
    unfold lookup
    split
    · rename_i h
      simp [h]
    · rename_i h
      rw [ih]
      simp [h]

theorem reg_ok_iff (p : List Char) : reg_ok p = true ↔ p ∈ register_names := by
  unfold reg_ok register_names
  simp [or_assoc]

theorem parse_line_pad_literal (k : Int) (hlo : -128 ≤ k) (hhi : k ≤ 255) (nl : List Char)
    (hnl : nl = [] ∨ nl = ['\n']) (n : Nat) (st : State) :
    parse_line (pad_line k ++ nl) n st =
      if 256 ≤ st.pos + (k % 256).toNat then
        (-1, ⟨st.out, st.pos,
          errfmt n "Resulting file too large - output file size limit: 256 bytes"⟩)
      else (0, ⟨memset0 st.out st.pos (k % 256).toNat, st.pos + (k % 256).toNat, st.errstr⟩) := by
  have hchars : ∀ c ∈ dec_literal k ++ nl, c ∈ "-0123456789\n".toList := by
    intro c hc
    rcases List.mem_append.1 hc with h | h
    · have key : ∀ x ∈ "-0123456789".toList, x ∈ "-0123456789\n".toList := by decide
      exact key c (dec_literal_chars k c h)
    · rcases hnl with h1 | h1 <;> subst h1
      · simp at h
      · rw [List.mem_singleton] at h; subst h; decide
  have hline : pad_line k ++ nl = "PAD".toList ++ (' ' :: (dec_literal k ++ nl)) := by
    unfold pad_line
    simp
  have hclean : ∀ c ∈ "PAD".toList ++ (' ' :: (dec_literal k ++ nl)), c ≠ '\x00' ∧ c ≠ ';' := by
    intro c hc
    have key : ∀ x ∈ "PAD -0123456789\n".toList, x ≠ '\x00' ∧ x ≠ ';' := by decide
    apply key
    rcases List.mem_append.1 hc with h | h
    · have k2 : ∀ x ∈ "PAD".toList, x ∈ "PAD -0123456789\n".toList := by decide
      exact k2 c h
    · rcases List.mem_cons.1 h with h | h
      · subst h; decide
      · have k2 : ∀ x ∈ "-0123456789\n".toList, x ∈ "PAD -0123456789\n".toList := by decide
        exact k2 c (hchars c h)
  have ht : strtok " \t\n".toList (strip_comment (cstr (pad_line k ++ nl))) =
      some ("PAD".toList, dec_literal k ++ nl) := by
    rw [hline, strip_comment_cstr_id _ hclean]
    exact strtok_token _ "PAD".toList _ (by decide) (by decide) (Or.inr ⟨_, _, rfl, by decide⟩)
  have hk : strtok " \t\n".toList (dec_literal k ++ nl) = some (dec_literal k, nl.tail) := by
    refine strtok_token _ _ _ (dec_literal_ne_nil k) ?_ ?_
    · intro c hc
      have key : ∀ x ∈ "-0123456789".toList, x ∉ " \t\n".toList := by decide
      exact key c (dec_literal_chars k c hc)
    · rcases hnl with h | h <;> subst h
      · exact Or.inl rfl
      · exact Or.inr ⟨_, _, rfl, by decide⟩
  rw [parse_line_pad _ _ _ n st ht (by decide)]
  unfold parse_pad
  rw [hk]
  have hv : constant_value (dec_literal k) = k := by
    rw [constant_value_dec, (saturate_range k).2 hlo hhi]
  have hr : ¬ (k < -128 ∨ k > 255) := by omega
  simp only [parse_constant_eq, hv, if_neg hr, check_output_length_eq]
  rw [if_neg (by decide)]
  by_cases hc : 256 ≤ st.pos + (k % 256).toNat
  · simp only [if_pos hc, if_true]
  · simp only [if_neg hc]
    rw [if_neg (by decide)]

theorem hex_digit_spec (c : Char) (h : is_hex_digit c) :
    digit_value c = some (hex_digit c) ∧ hex_digit c < 16 := by
  have key : ∀ x ∈ "0123456789ABCDEF".toList,
      digit_value x = some ("0123456789ABCDEF".toList.indexOf x) ∧
        "0123456789ABCDEF".toList.indexOf x < 16 := by decide
  have := key _ h
  rw [digit_value_toupper] at this
  exact this

theorem strtol_digits_hex (ds : List Char) (h : ∀ c ∈ ds, is_hex_digit c) (acc : Nat) :
    strtol_digits 16 ds acc = ds.foldl (fun a c => a * 16 + hex_digit c) acc := by
  induction ds generalizing acc with
  | nil => rfl
  | cons c cs ih =>
    obtain ⟨h1, h2⟩ := hex_digit_spec c (h c (List.mem_cons_self _ _))
    simp only [strtol_digits, h1, if_pos h2, List.foldl_cons]
    exact ih (fun x hx => h x (List.mem_cons_of_mem _ hx)) _

theorem decode_encode : ∀ e ∈ instructions, ∀ pa ∈ register_names, ∀ pb ∈ register_names,
    decode (encode e (regs_for e.nops pa pb)) = some (e, regs_for e.nops pa pb) := by
  decide

theorem lookup_mem (m : List Char) (l : List instruction) (e : instruction)
    (h : lookup m l = some e) : e ∈ l := by
  induction l with
  | nil => simp [lookup] at h
  | cons i is ih =>
    unfold lookup at h
    split at h
    · simp only [Option.some.injEq] at h
      exact h ▸ List.mem_cons_self _ _
    · exact List.mem_cons_of_mem _ (ih h)

theorem parse_operands_encoded (inst : instruction) (rest : List Char) (n : Nat) (st : State)
    (h : (parse_operands inst rest n { st with out := poke st.out st.pos inst.opcode }).1 = 0) :
    ∃ pa ∈ register_names, ∃ pb ∈ register_names,
      register_operands inst rest = regs_for inst.nops pa pb ∧
      (parse_operands inst rest n { st with out := poke st.out st.pos inst.opcode }).2.out st.pos =
        encode inst (regs_for inst.nops pa pb) := by
  have hD : " ,\t\n".toList = [' ', ',', '\t', '\n'] := rfl
  have hW : " \t\n".toList = [' ', '\t', '\n'] := rfl
  have h0 : "r0".toList ∈ register_names := by decide
  revert h
  unfold parse_operands register_operands encode
  cases hs : inst.nops <;>
    simp only [inject_ra_eq, inject_rb_eq, check_output_length_eq, parse_constant_eq, hD, hW,
      regs_for]
  · cases h1 : strtok [' ', ',', '\t', '\n'] rest with
    | none => simp
    | some p1 =>
      obtain ⟨pa, rest1⟩ := p1
      by_cases ha : reg_ok pa = true
      · cases h2 : strtok [' ', ',', '\t', '\n'] rest1 with
        | none => simp [ha, h2]
        | some p2 =>
          obtain ⟨pb, rest2⟩ := p2
          by_cases hb : reg_ok pb = true
          · intro _
            refine ⟨pa, (reg_ok_iff pa).1 ha, pb, (reg_ok_iff pb).1 hb, by simp [h2], ?_⟩
            simp [ha, hb, h2, poke]
          · simp [ha, hb, h2]
      · simp [ha]
  · cases h1 : strtok [' ', '\t', '\n'] rest with
    | none => simp
    | some p1 =>
      obtain ⟨pb, rest1⟩ := p1
      by_cases hb : reg_ok pb = true
      · intro _
        refine ⟨_, h0, pb, (reg_ok_iff pb).1 hb, rfl, ?_⟩
        simp [hb, poke]
      · simp [hb]
  · cases h1 : strtok [' ', ',', '\t', '\n'] rest with
    | none => simp
    | some p1 =>
      obtain ⟨pb, rest1⟩ := p1
      by_cases hb : reg_ok pb = true
      · intro hok
        refine ⟨_, h0, pb, (reg_ok_iff pb).1 hb, rfl, ?_⟩
        revert hok
        simp only [hb, if_true]
        repeat' split
        all_goals simp_all [poke]
      · simp [hb]
  · intro hok
    refine ⟨_, h0, _, h0, trivial, ?_⟩
    revert hok
    repeat' split
    all_goals simp_all [poke]
  · intro _
    exact ⟨_, h0, _, h0, trivial, by simp [poke]⟩

/-! ## The claims -/

/-- C1: the driver on the three-line source `LD r1, r2` / `JMP 10h` / `CLF`
succeeds with byte count 4 and the image starts 0x06, 0x40, 0x10, 0x60,
whatever the buffers held before. -/
theorem C1_end_to_end (res0 : Int) (out : Nat → Nat) (errstr : String) :
    (parse_source_file "LD r1, r2\nJMP 10h\nCLF\n".toList res0 out errstr).1 = 4 ∧
    (parse_source_file "LD r1, r2\nJMP 10h\nCLF\n".toList res0 out errstr).2.out 0 = 0x06 ∧
    (parse_source_file "LD r1, r2\nJMP 10h\nCLF\n".toList res0 out errstr).2.out 1 = 0x40 ∧
    (parse_source_file "LD r1, r2\nJMP 10h\nCLF\n".toList res0 out errstr).2.out 2 = 0x10 ∧
    (parse_source_file "LD r1, r2\nJMP 10h\nCLF\n".toList res0 out errstr).2.out 3 = 0x60 := by
  have h : "LD r1, r2\nJMP 10h\nCLF\n".toList =
      ['L', 'D', ' ', 'r', '1', ',', ' ', 'r', '2', '\n', 'J', 'M', 'P', ' ', '1', '0', 'h',
        '\n', 'C', 'L', 'F', '\n'] := rfl
  rw [h]
  simp [parse_source_file, getlines, parse_lines, parse_line, strtok, strtok_scan, cstr,
    strip_comment, toupper, check_output_length, OUT_LEN, lookup, instructions,
    parse_operands, poke, inject_ra, inject_rb, parse_constant, constant_value, strtol,
    strtol_digits, digit_value, has_hex_prefix, isspace, LONG_MAX, LONG_MIN]

/-- C2: for each of the 33 rows (mnemonic, base, shape) of the table printed
in the specification, every spelling of the mnemonic in any mix of case, all
registers `ra`, `rb` in 0..3, every constant `k` in -128..255 and every cursor
with room for the instruction, `parse_line` accepts the minimal valid line of
the shape (with or without its newline) and the byte at the cursor is the
documented base OR `ra << 2` OR `rb` for RA_RB, base OR `rb` for RB and RB_K,
and the base itself for K and NONE. -/
theorem C2_minimal_line_opcode (e : instruction) (he : e ∈ spec_table) (sp : List Char)
    (hsp : sp.map toupper = e.mnemonic) (ra rb : Nat) (hra : ra < 4) (hrb : rb < 4) (k : Int)
    (hlo : -128 ≤ k) (hhi : k ≤ 255) (nl : List Char) (hnl : nl = [] ∨ nl = ['\n'])
    (n : Nat) (st : State) (hroom : st.pos + width e.nops ≤ 256) :
    (parse_line (minimal_line sp e.nops ra rb k ++ nl) n st).1 = 0 ∧
    (parse_line (minimal_line sp e.nops ra rb k ++ nl) n st).2.out st.pos =
      expected_opcode e.opcode e.nops ra rb ∧
    spec_table.length = 33 := by
  refine and_assoc.1 ⟨?_, spec_table_facts.1⟩
  have hpos : st.pos < 256 := by
    unfold width at hroom
    split at hroom <;> omega
  have hkv : ¬ (constant_value (dec_literal k) < -128 ∨ constant_value (dec_literal k) > 255) := by
    rw [constant_value_dec, (saturate_range k).2 hlo hhi]
    omega
  have hktok : ∀ d, d = [' ', '\t', '\n'] ∨ d = [' ', ',', '\t', '\n'] →
      strtok d (dec_literal k ++ nl) = some (dec_literal k, nl.tail) := by
    intro d hd
    refine strtok_token d _ _ (dec_literal_ne_nil k) ?_ ?_
    · intro c hc
      have key : ∀ x ∈ "-0123456789".toList,
          x ∉ [' ', '\t', '\n'] ∧ x ∉ [' ', ',', '\t', '\n'] := by decide
      rcases hd with h | h <;> subst h
      · exact (key c (dec_literal_chars k c hc)).1
      · exact (key c (dec_literal_chars k c hc)).2
    · rcases hnl with h | h <;> subst h
      · exact Or.inl rfl
      · refine Or.inr ⟨_, _, rfl, ?_⟩
        rcases hd with h | h <;> subst h <;> decide
  have d0 : Nat.digitChar 0 = '0' := rfl
  have d1 : Nat.digitChar 1 = '1' := rfl
  have d2 : Nat.digitChar 2 = '2' := rfl
  have d3 : Nat.digitChar 3 = '3' := rfl
  rw [parse_line_minimal e he sp hsp ra rb hra hrb k nl hnl n st hpos]
  unfold parse_operands operand_text expected_opcode
  cases hs : e.nops
  case OPERANDS_NONE => simp [poke]
  case OPERANDS_K =>
    have hp1 : ¬ 256 ≤ st.pos + 1 := by
      rw [hs] at hroom; simp only [width] at hroom; omega
    have := hktok _ (Or.inl rfl)
    simp only [check_output_length_fst, parse_constant_eq, if_neg hp1]
    simp [this, hkv, poke]
  case OPERANDS_RB =>
    interval_cases rb <;> rcases hnl with h | h <;> subst h <;>
      simp [reg_token, strtok, strtok_scan, inject_rb, poke, d0, d1, d2, d3]
  case OPERANDS_RA_RB =>
    interval_cases ra <;> interval_cases rb <;> rcases hnl with h | h <;> subst h <;>
      simp [reg_token, strtok, strtok_scan, inject_ra, inject_rb, poke, d0, d1, d2, d3]
  case OPERANDS_RB_K =>
    have hp1 : ¬ 256 ≤ st.pos + 1 := by
      rw [hs] at hroom; simp only [width] at hroom; omega
    have := hktok _ (Or.inr rfl)
    simp only [check_output_length_fst, parse_constant_eq, if_neg hp1]
    interval_cases rb <;>
      simp [reg_token, strtok, strtok_scan, inject_rb, poke, hkv, this, d0, d1, d2, d3]

/-- Witness of C2: `xOr r3, r1` at the last byte of the image gives 0xed. -/
theorem C2_minimal_line_opcode_witness :
    minimal_line "xOr".toList OPERANDS_RA_RB 3 1 0 ++ ['\n'] = "xOr r3, r1\n".toList ∧
    (parse_line (minimal_line "xOr".toList OPERANDS_RA_RB 3 1 0 ++ ['\n']) 1
      ⟨fun _ => 0, 255, ""⟩).1 = 0 ∧
    (parse_line (minimal_line "xOr".toList OPERANDS_RA_RB 3 1 0 ++ ['\n']) 1
      ⟨fun _ => 0, 255, ""⟩).2.out 255 = 0xed :=
  ⟨by decide,
   (C2_minimal_line_opcode ⟨"XOR".toList, 0xe0, OPERANDS_RA_RB⟩ (by decide) "xOr".toList
      (by decide) 3 1 (by decide) (by decide) 0 (by decide) (by decide) ['\n'] (Or.inr rfl) 1
      ⟨fun _ => 0, 255, ""⟩ (by decide)).1,
   (C2_minimal_line_opcode ⟨"XOR".toList, 0xe0, OPERANDS_RA_RB⟩ (by decide) "xOr".toList
      (by decide) 3 1 (by decide) (by decide) 0 (by decide) (by decide) ['\n'] (Or.inr rfl) 1
      ⟨fun _ => 0, 255, ""⟩ (by decide)).2.1⟩

/-- C3: when `parse_line` returns 0 on a line whose first token names the
table row `inst`, the cursor has advanced by exactly 1 for the shapes RA_RB,
RB and NONE and only the byte at the old cursor may differ; for the shapes
RB_K and K it has advanced by exactly 2, the byte after the opcode is the
constant of the line's constant token modulo 256, and only the bytes at the
old cursor and the one after it may differ. -/
theorem C3_cursor_advance (line t rest : List Char) (n : Nat) (st : State) (inst : instruction)
    (ht : strtok " \t\n".toList (strip_comment (cstr line)) = some (t, rest))
    (hl : lookup (t.map toupper) instructions = some inst)
    (hok : (parse_line line n st).1 = 0) :
    ((inst.nops = OPERANDS_RA_RB ∨ inst.nops = OPERANDS_RB ∨ inst.nops = OPERANDS_NONE) →
      (parse_line line n st).2.pos = st.pos + 1 ∧
      ∀ i, i ≠ st.pos → (parse_line line n st).2.out i = st.out i) ∧
    ((inst.nops = OPERANDS_RB_K ∨ inst.nops = OPERANDS_K) →
      (parse_line line n st).2.pos = st.pos + 2 ∧
      (∃ kt, constant_token inst rest = some kt ∧
        (parse_line line n st).2.out (st.pos + 1) = (constant_value kt % 256).toNat) ∧
      ∀ i, i ≠ st.pos → i ≠ st.pos + 1 → (parse_line line n st).2.out i = st.out i) := by
  rw [parse_line_instr line t rest n st inst ht hl] at hok ⊢
  by_cases hc : 256 ≤ st.pos
  · rw [if_pos hc] at hok
    exact absurd hok (by simp)
  rw [if_neg hc] at hok ⊢
  constructor
  · rintro (h | h | h)
    all_goals
      revert hok
      unfold parse_operands
      rw [h]
      simp only [check_output_length_fst, parse_constant_eq]
      repeat' split
      all_goals simp_all [poke]
  · rintro (h | h)
    all_goals
      revert hok
      unfold parse_operands constant_token
      rw [h]
      simp only [check_output_length_fst, parse_constant_eq]
      repeat' split
      all_goals simp_all [poke]

/-- Witness of C3: `data r2, -1` at cursor 7 of a zero image ends at cursor 9
with the byte 0xff after the opcode. -/
theorem C3_cursor_advance_witness :
    (parse_line "data r2, -1\n".toList 4 ⟨fun _ => 0, 7, ""⟩).2.pos = 7 + 2 ∧
    (∃ kt, constant_token ⟨"DATA".toList, 0x20, OPERANDS_RB_K⟩ "r2, -1\n".toList = some kt ∧
      (parse_line "data r2, -1\n".toList 4 ⟨fun _ => 0, 7, ""⟩).2.out (7 + 1) =
        (constant_value kt % 256).toNat) ∧
    (parse_line "data r2, -1\n".toList 4 ⟨fun _ => 0, 7, ""⟩).2.out 8 = 255 :=
  ⟨((C3_cursor_advance "data r2, -1\n".toList "data".toList "r2, -1\n".toList 4
      ⟨fun _ => 0, 7, ""⟩ ⟨"DATA".toList, 0x20, OPERANDS_RB_K⟩ (by decide) (by decide)
      (by decide)).2 (Or.inl rfl)).1,
   ((C3_cursor_advance "data r2, -1\n".toList "data".toList "r2, -1\n".toList 4
      ⟨fun _ => 0, 7, ""⟩ ⟨"DATA".toList, 0x20, OPERANDS_RB_K⟩ (by decide) (by decide)
      (by decide)).2 (Or.inl rfl)).2.1,
   by decide⟩

/-- C4: for `-128 ≤ k ≤ 255` the decimal literal of `k`, its binary literal
with suffix `b` and its hexadecimal literal (lowercase or uppercase digits)
with suffix `h` are all accepted by `parse_constant` and all store the byte
`k mod 256`, which is `k` for `k ≥ 0` and `256 + k` for `k < 0`; the error
buffer is not written. -/
theorem C4_constant_roundtrip (k : Int) (hlo : -128 ≤ k) (hhi : k ≤ 255) (n b : Nat)
    (e : String) :
    parse_constant (dec_literal k) n b e = (0, (k % 256).toNat, e) ∧
    parse_constant (bin_literal k) n b e = (0, (k % 256).toNat, e) ∧
    parse_constant (hex_literal k) n b e = (0, (k % 256).toNat, e) ∧
    parse_constant (hex_literal_upper k) n b e = (0, (k % 256).toNat, e) ∧
    (k % 256).toNat = (if 0 ≤ k then k.toNat else (256 + k).toNat) := by
  have hs : saturate k = k := (saturate_range k).2 hlo hhi
  have hr : ¬ (k < -128 ∨ k > 255) := by omega
  refine ⟨?_, ?_, ?_, ?_, ?_⟩
  · rw [parse_constant_eq, constant_value_dec, hs, if_neg hr]
  · rw [parse_constant_eq, constant_value_bin, hs, if_neg hr]
  · rw [parse_constant_eq, (constant_value_hex k).1, hs, if_neg hr]
  · rw [parse_constant_eq, (constant_value_hex k).2, hs, if_neg hr]
  · split <;> omega

/-- Witness of C4: the constant -86, written `-86`, `-1010110b`, `-56h`. -/
theorem C4_constant_roundtrip_witness :
    parse_constant (dec_literal (-86)) 1 0 "" = (0, ((-86 : Int) % 256).toNat, "") ∧
    dec_literal (-86) = "-86".toList ∧ bin_literal (-86) = "-1010110b".toList ∧
    hex_literal (-86) = "-56h".toList ∧ ((-86 : Int) % 256).toNat = 170 :=
  ⟨(C4_constant_roundtrip (-86) (by decide) (by decide) 1 0 "").1, by decide, by decide,
    by decide, by decide⟩

/-- C5: for every integer `k` and line number `n`, `parse_constant` on the
decimal literal of `k`, on its binary literal with suffix `b` or on its
hexadecimal literal (either case) with suffix `h` returns -1 exactly when
`k < -128` or `k > 255`, and otherwise returns 0; when it returns -1 the
message is `<n>: Invalid operand size (constant must fit in one byte)` and the
target byte keeps its value. -/
theorem C5_constant_range (k : Int) (n b : Nat) (e : String) (lit : List Char)
    (hlit : lit = dec_literal k ∨ lit = bin_literal k ∨ lit = hex_literal k ∨
      lit = hex_literal_upper k) :
    ((parse_constant lit n b e).1 = -1 ↔ (k < -128 ∨ k > 255)) ∧
    ((parse_constant lit n b e).1 = 0 ↔ ¬ (k < -128 ∨ k > 255)) ∧
    ((parse_constant lit n b e).1 = -1 →
      parse_constant lit n b e =
        (-1, b, toString n ++ ": Invalid operand size (constant must fit in one byte)")) := by
  have hv : constant_value lit = saturate k := by
    rcases hlit with h | h | h | h <;> subst h
    · exact constant_value_dec k
    · exact constant_value_bin k
    · exact (constant_value_hex k).1
    · exact (constant_value_hex k).2
  have hmsg : errfmt n "Invalid operand size (constant must fit in one byte)" =
      toString n ++ ": Invalid operand size (constant must fit in one byte)" := by
    unfold errfmt
    rw [String.append_assoc]
    rfl
  rw [parse_constant_eq, hv, hmsg]
  by_cases hr : k < -128 ∨ k > 255
  · rw [if_pos ((saturate_range k).1.2 hr)]
    simp [hr]
  · rw [if_neg (fun h => hr ((saturate_range k).1.1 h))]
    simp [hr]

/-- Witness of C5: the hexadecimal literal of 256 on line 12. -/
theorem C5_constant_range_witness :
    hex_literal 256 = "100h".toList ∧
    parse_constant "100h".toList 12 7 "" =
      (-1, 7, "12: Invalid operand size (constant must fit in one byte)") :=
  ⟨by decide,
   (C5_constant_range 256 12 7 "" "100h".toList (Or.inr (Or.inr (Or.inl (by decide))))).2.2
     (by decide)⟩

/-- C6 (the code departs from the claim): a PAD that would bring the image
to exactly 256 bytes is rejected.  After the one-byte `CLF`, `PAD 255` fails
with the capacity message of line 2, although the same two lines in the other
order assemble to 256 bytes. -/
theorem C6_pad_filling_image_rejected (res0 : Int) (out : Nat → Nat) (errstr : String) :
    (parse_source_file "CLF\nPAD 255\n".toList res0 out errstr).1 = -1 ∧
    (parse_source_file "CLF\nPAD 255\n".toList res0 out errstr).2.errstr =
      "2: Resulting file too large - output file size limit: 256 bytes" ∧
    (parse_source_file "PAD 255\nCLF\n".toList res0 out errstr).1 = 256 := by
  have h : "CLF\nPAD 255\n".toList =
      ['C', 'L', 'F', '\n', 'P', 'A', 'D', ' ', '2', '5', '5', '\n'] := rfl
  have h2 : "PAD 255\nCLF\n".toList =
      ['P', 'A', 'D', ' ', '2', '5', '5', '\n', 'C', 'L', 'F', '\n'] := rfl
  rw [h, h2]
  simp [parse_source_file, getlines, parse_lines, parse_line, parse_pad, strtok, strtok_scan,
    cstr, strip_comment, toupper, check_output_length, OUT_LEN, lookup, instructions,
    parse_operands, poke, parse_constant, constant_value, strtol,
    strtol_digits, digit_value, has_hex_prefix, isspace, LONG_MAX, LONG_MIN]
  decide

/-- C7: on a PAD line (first token `PAD` in any case) `parse_line` returns 0
or -1.  When it returns 0 the line has a constant token `kt`, and with `K` the
byte of that constant the cursor is `pos + K`, the bytes at `pos .. pos+K-1`
are zero and every other byte is unchanged.  When it returns -1 the image and
the cursor are unchanged.  The driver on `PAD 5` followed by end of input
returns 5 with bytes 0..4 zero. -/
theorem C7_pad_frame (line t rest : List Char) (n : Nat) (st : State)
    (ht : strtok " \t\n".toList (strip_comment (cstr line)) = some (t, rest))
    (hpad : t.map toupper = "PAD".toList) :
    ((parse_line line n st).1 = 0 ∨ (parse_line line n st).1 = -1) ∧
    ((parse_line line n st).1 = 0 →
      ∃ kt rest1, strtok " \t\n".toList rest = some (kt, rest1) ∧
        (parse_line line n st).2.pos = st.pos + (constant_value kt % 256).toNat ∧
        (∀ i, st.pos ≤ i → i < st.pos + (constant_value kt % 256).toNat →
          (parse_line line n st).2.out i = 0) ∧
        (∀ i, i < st.pos ∨ st.pos + (constant_value kt % 256).toNat ≤ i →
          (parse_line line n st).2.out i = st.out i)) ∧
    ((parse_line line n st).1 = -1 →
      (parse_line line n st).2.out = st.out ∧ (parse_line line n st).2.pos = st.pos) ∧
    (∀ (res0 : Int) (out : Nat → Nat) (errstr : String),
      (parse_source_file "PAD 5".toList res0 out errstr).1 = 5 ∧
      ∀ i, i < 5 → (parse_source_file "PAD 5".toList res0 out errstr).2.out i = 0) := by
  rw [parse_line_pad line t rest n st ht hpad]
  refine ⟨?_, ?_, ?_, ?_⟩
  · rcases parse_pad_cases rest n st with h | ⟨kt, rest1, _, _, _, _, h⟩
    · exact Or.inr h.1
    · rw [h]; exact Or.inl rfl
  · intro h0
    rcases parse_pad_cases rest n st with h | ⟨kt, rest1, hk, _, _, _, h⟩
    · rw [h.1] at h0; exact absurd h0 (by decide)
    · refine ⟨kt, rest1, hk, ?_, ?_, ?_⟩
      · rw [h]
      · intro i h1 h2
        rw [h]
        simp [memset0, h1, h2]
      · intro i h1
        rw [h]
        have : ¬ (st.pos ≤ i ∧ i < st.pos + (constant_value kt % 256).toNat) := by omega
        simp only [memset0, if_neg this]
  · intro h1
    rcases parse_pad_cases rest n st with h | ⟨kt, rest1, _, _, _, _, h⟩
    · exact h.2
    · rw [h] at h1; exact absurd h1 (by simp)
  · intro res0 out errstr
    have h : "PAD 5".toList = ['P', 'A', 'D', ' ', '5'] := rfl
    rw [h]
    simp [parse_source_file, getlines, parse_lines, parse_line, parse_pad, strtok, strtok_scan,
      cstr, strip_comment, toupper, check_output_length, OUT_LEN, parse_constant,
      constant_value, strtol, strtol_digits, digit_value, has_hex_prefix, isspace, LONG_MAX,
      LONG_MIN, memset0]
    intro i h1 h2
    omega

/-- Witness of C7: the line `pad 3` at cursor 10 of a zero image. -/
theorem C7_pad_frame_witness :
    ((parse_line "pad 3\n".toList 1 ⟨fun _ => 0, 10, ""⟩).1 = 0 ∨
      (parse_line "pad 3\n".toList 1 ⟨fun _ => 0, 10, ""⟩).1 = -1) ∧
    (parse_line "pad 3\n".toList 1 ⟨fun _ => 0, 10, ""⟩).2.pos = 13 :=
  ⟨(C7_pad_frame "pad 3\n".toList "pad".toList "3\n".toList 1 ⟨fun _ => 0, 10, ""⟩
      (by decide) (by decide)).1, by decide⟩

/-- C8: a source made of valid instruction lines whose sizes add up to exactly
256 bytes assembles, and the driver returns 256.  With one more line after it
that is a valid instruction line, or a PAD line with a count of at least 1,
the driver returns -1 and the message is the capacity message with the number
of the added line. -/
theorem C8_full_image (ls : List (List Char)) (hlines : ∀ l ∈ ls, is_text_line l)
    (hvalid : ∀ l ∈ ls, (instr_size l).isSome) (htotal : total_size ls = 256)
    (res0 : Int) (out : Nat → Nat) (errstr : String) :
    (parse_source_file ls.flatten res0 out errstr).1 = 256 ∧
    ∀ extra : List Char, '\n' ∉ extra.dropLast →
      ((instr_size extra).isSome ∨ ∃ K, pad_count extra = some K ∧ 1 ≤ K) →
      (parse_source_file (ls.flatten ++ extra) res0 out errstr).1 = -1 ∧
      (parse_source_file (ls.flatten ++ extra) res0 out errstr).2.errstr =
        toString (ls.length + 1) ++
          ": Resulting file too large - output file size limit: 256 bytes" := by
  have hne : ls ≠ [] := by
    intro h
    rw [h] at htotal
    exact absurd htotal (by decide)
  constructor
  · obtain ⟨res1, st1, hpos, hres, _, heq⟩ :=
      parse_lines_valid ls [] hvalid 1 res0 ⟨out, 0, errstr⟩
        (by show 0 + total_size ls ≤ 256; omega)
    have hg := getlines_flatten ls hlines []
    have hnil : getlines [] = [] := rfl
    rw [List.append_nil, hnil, List.append_nil] at hg
    rw [List.append_nil] at heq
    unfold parse_source_file
    simp only
    rw [hg, heq]
    unfold parse_lines
    rw [hres hne, if_neg (by simp), hpos, htotal]
    rfl
  · intro extra hnl hextra
    have hxne : extra ≠ [] := by
      intro h
      subst h
      rcases hextra with h | ⟨K, h, _⟩
      · exact absurd h (by decide)
      · have : pad_count [] = none := by decide
        rw [this] at h
        exact absurd h (by simp)
    obtain ⟨res1, st1, hpos, hres, _, heq⟩ :=
      parse_lines_valid ls [extra] hvalid 1 res0 ⟨out, 0, errstr⟩
        (by show 0 + total_size ls ≤ 256; omega)
    have hfull : 256 ≤ st1.pos := by
      have h0 : (⟨out, 0, errstr⟩ : State).pos = 0 := rfl
      omega
    have hfail : (parse_line extra (1 + ls.length) st1).1 = -1 ∧
        (parse_line extra (1 + ls.length) st1).2.errstr =
          toString (1 + ls.length) ++
            ": Resulting file too large - output file size limit: 256 bytes" := by
      rcases hextra with h | ⟨K, h, hK⟩
      · obtain ⟨k, hk⟩ := Option.isSome_iff_exists.1 h
        exact (instr_size_spec extra k hk).2.2 _ st1 hfull
      · exact pad_count_spec extra K h _ st1 (by omega)
    have hg := getlines_flatten ls hlines extra
    rw [getlines_extra extra hxne hnl] at hg
    unfold parse_source_file
    simp only
    rw [hg, heq]
    unfold parse_lines
    simp only [hfail.1, if_true]
    rw [Nat.add_comm ls.length 1]
    exact ⟨trivial, hfail.2⟩

/-- Witness of C8: 128 lines `JMP 0` fill the image; a 129th line `CLF` is
rejected with the capacity message of line 129. -/
theorem C8_full_image_witness :
    (parse_source_file (List.replicate 128 "JMP 0\n".toList).flatten 0 (fun _ => 0) "").1 = 256 ∧
    (parse_source_file ((List.replicate 128 "JMP 0\n".toList).flatten ++ "CLF".toList) 0
      (fun _ => 0) "").2.errstr =
        "129: Resulting file too large - output file size limit: 256 bytes" :=
  have hl : ∀ l ∈ List.replicate 128 "JMP 0\n".toList, is_text_line l :=
    fun l h => by rw [List.eq_of_mem_replicate h]; unfold is_text_line; decide
  have hv : ∀ l ∈ List.replicate 128 "JMP 0\n".toList, (instr_size l).isSome :=
    fun l h => by rw [List.eq_of_mem_replicate h]; decide
  have ht : total_size (List.replicate 128 "JMP 0\n".toList) = 256 := by
    have h2 : instr_size "JMP 0\n".toList = some 2 := by decide
    unfold total_size
    rw [List.map_replicate, h2, List.sum_replicate]
    rfl
  ⟨(C8_full_image _ hl hv ht 0 (fun _ => 0) "").1,
   (((C8_full_image _ hl hv ht 0 (fun _ => 0) "").2 "CLF".toList (by decide)
      (Or.inl (by decide))).2).trans (by rw [List.length_replicate]; decide)⟩

/-- C9: a line whose text before its first `;` is empty or only spaces, tabs
and newlines is accepted, and the call leaves the image, the cursor and the
error buffer as they were, at every cursor (a full image included). -/
theorem C9_blank_line_no_effect (line : List Char) (n : Nat) (st : State)
    (h : ∀ c ∈ line.takeWhile (fun x => decide (x ≠ ';')), c = ' ' ∨ c = '\t' ∨ c = '\n') :
    parse_line line n st = (0, st) := by
  unfold parse_line
  rw [strtok_blank _ (fun c hc => h c (strip_comment_cstr_mem line c hc))]

/-- Witness of C9: a tab-indented comment line at a full image. -/
theorem C9_blank_line_no_effect_witness :
    parse_line " \t ; LD r1, r2\n".toList 7 ⟨fun _ => 0, 256, ""⟩ = (0, ⟨fun _ => 0, 256, ""⟩) :=
  C9_blank_line_no_effect " \t ; LD r1, r2\n".toList 7 ⟨fun _ => 0, 256, ""⟩ (by decide)

/-- C10: starting from cursor 0, after any sequence of calls of `parse_line`
(successful or not) the cursor is at most 256, a further call never decreases
it, and the driver returns either -1 or a byte count between 0 and 256. -/
theorem C10_cursor_invariant (calls : List (List Char × Nat)) (st : State) (line : List Char)
    (n : Nat) (file : List Char) (res0 : Int) (out : Nat → Nat) (errstr : String) :
    (feed calls { st with pos := 0 }).pos ≤ 256 ∧
    (feed calls { st with pos := 0 }).pos ≤
      (parse_line line n (feed calls { st with pos := 0 })).2.pos ∧
    (parse_line line n (feed calls { st with pos := 0 })).2.pos ≤ 256 ∧
    ((parse_source_file file res0 out errstr).1 = -1 ∨
      (0 ≤ (parse_source_file file res0 out errstr).1 ∧
        (parse_source_file file res0 out errstr).1 ≤ 256)) := by
  have h0 : (feed calls { st with pos := 0 }).pos ≤ 256 := feed_pos_le _ _ (Nat.zero_le _)
  refine ⟨h0, (parse_line_pos_bounds _ _ _).1, (parse_line_pos_bounds _ _ _).2 h0, ?_⟩
  unfold parse_source_file
  simp only
  split
  · exact Or.inl rfl
  · right
    have := parse_lines_pos_le (getlines file) 1 res0 ⟨out, 0, errstr⟩ (Nat.zero_le _)
    constructor
    · exact Int.ofNat_nonneg _
    · show ((parse_lines (getlines file) 1 res0 ⟨out, 0, errstr⟩).2.pos : Int) ≤ 256
      exact_mod_cast this

/-- C11: when the lines before line `i` of a source are all accepted and line `i`
is rejected in the state they leave, the driver returns -1, its final state is
the one that call of `parse_line` left, the message is `i: ` followed by one
of the six fixed reasons, and every source with the same lines up to line `i`
gives the same result whatever follows. -/
theorem C11_first_error_wins (file : List Char) (pre : List (List Char)) (line : List Char)
    (post : List (List Char)) (res0 : Int) (out : Nat → Nat) (errstr : String)
    (hsplit : getlines file = pre ++ line :: post)
    (hpre : all_accepted pre 1 ⟨out, 0, errstr⟩)
    (hfail : (parse_line line (1 + pre.length) (state_after pre 1 ⟨out, 0, errstr⟩)).1 = -1) :
    (parse_source_file file res0 out errstr).1 = -1 ∧
    (parse_source_file file res0 out errstr).2 =
      (parse_line line (1 + pre.length) (state_after pre 1 ⟨out, 0, errstr⟩)).2 ∧
    (∃ r ∈ reasons, (parse_source_file file res0 out errstr).2.errstr =
      toString (1 + pre.length) ++ ": " ++ r) ∧
    (∀ (file1 : List Char) (post1 : List (List Char)) (res1 : Int),
      getlines file1 = pre ++ line :: post1 →
      parse_source_file file1 res1 out errstr = parse_source_file file res0 out errstr) := by
  have key : ∀ (f : List Char) (p : List (List Char)) (r : Int), getlines f = pre ++ line :: p →
      parse_source_file f r out errstr =
        (-1, (parse_line line (1 + pre.length) (state_after pre 1 ⟨out, 0, errstr⟩)).2) := by
    intro f p r hf
    unfold parse_source_file
    simp only
    rw [hf, parse_lines_first_failure pre line p 1 r _ hpre hfail, if_pos hfail]
  rw [key file post res0 hsplit]
  refine ⟨rfl, rfl, ?_, fun f p r hf => key f p r hf⟩
  rcases parse_line_result line (1 + pre.length) (state_after pre 1 ⟨out, 0, errstr⟩) with
    h | ⟨_, r, hr, hmsg⟩
  · rw [h] at hfail
    exact absurd hfail (by decide)
  · exact ⟨r, hr, hmsg⟩

/-- Witness of C11: line 3 of `CLF`, blank, `JMP`, `foo` is the first rejected
line; the unknown mnemonic on line 4 is never reported. -/
theorem C11_first_error_wins_witness :
    (parse_source_file "CLF\n\nJMP\nfoo\n".toList 0 (fun _ => 0) "").1 = -1 ∧
    (parse_source_file "CLF\n\nJMP\nfoo\n".toList 0 (fun _ => 0) "").2.errstr =
      "3: Invalid combination of operands" :=
  ⟨(C11_first_error_wins "CLF\n\nJMP\nfoo\n".toList ["CLF\n".toList, "\n".toList]
      "JMP\n".toList ["foo\n".toList] 0 (fun _ => 0) "" (by decide)
      ⟨by decide, by decide, trivial⟩ (by decide)).1,
   by decide⟩

/-- C12 (the code departs from the claim for the empty source): with no line to
read the driver returns whatever the uninitialised `res` dictates, -1 when
that value is -1 and the byte count 0 otherwise; a non-empty source made only
of blank and comment-only lines always returns byte count 0. -/
theorem C12_empty_source_result (out : Nat → Nat) (errstr : String) :
    (parse_source_file [] (-1) out errstr).1 = -1 ∧
    (∀ res0 : Int, res0 ≠ -1 → (parse_source_file [] res0 out errstr).1 = 0) ∧
    (∀ (file : List Char) (res0 : Int), file ≠ [] → (∀ l ∈ getlines file, is_blank_line l) →
      (parse_source_file file res0 out errstr).1 = 0) := by
  refine ⟨rfl, ?_, ?_⟩
  · intro res0 h
    unfold parse_source_file
    simp only [getlines, parse_lines]
    rw [if_neg h]
    rfl
  · intro file res0 hne hb
    unfold parse_source_file
    simp only
    rw [parse_lines_blank _ hb, if_neg (getlines_ne_nil file hne)]
    simp

/-- C13: at a cursor below 256, a line whose first token is `t` is rejected
with `<n>: Invalid instruction mnemonic` exactly when the upper-cased `t` is
not `PAD` and equals the mnemonic of none of the 33 table rows; the image and
the cursor are then unchanged. -/
theorem C13_invalid_mnemonic (line t rest : List Char) (n : Nat) (st : State)
    (ht : strtok " \t\n".toList (strip_comment (cstr line)) = some (t, rest))
    (hc : st.pos < 256) :
    (((parse_line line n st).1 = -1 ∧
        (parse_line line n st).2.errstr = toString n ++ ": Invalid instruction mnemonic") ↔
      (t.map toupper ≠ "PAD".toList ∧ ∀ e ∈ instructions, e.mnemonic ≠ t.map toupper)) ∧
    ((t.map toupper ≠ "PAD".toList ∧ ∀ e ∈ instructions, e.mnemonic ≠ t.map toupper) →
      (parse_line line n st).2.out = st.out ∧ (parse_line line n st).2.pos = st.pos) ∧
    instructions.length = 33 := by
  have hmsg : toString n ++ ": Invalid instruction mnemonic" =
      errfmt n "Invalid instruction mnemonic" := by
    rw [errfmt_append]; rfl
  have hnone : (t.map toupper ≠ "PAD".toList ∧ ∀ e ∈ instructions, e.mnemonic ≠ t.map toupper) →
      parse_line line n st = (-1, { st with errstr := errfmt n "Invalid instruction mnemonic" }) := by
    rintro ⟨hp, hl⟩
    unfold parse_line
    rw [ht]
    simp only
    rw [if_neg hp, check_output_length_eq, if_neg (show ¬ 256 ≤ st.pos by omega)]
    simp only
    rw [if_neg (by decide), (lookup_none_iff _ _).2 hl]
  refine ⟨⟨?_, ?_⟩, ?_, rfl⟩
  · rintro ⟨hf, he⟩
    rw [hmsg] at he
    by_cases hp : t.map toupper = "PAD".toList
    · rw [parse_line_pad line t rest n st ht hp] at hf he
      rcases parse_pad_result rest n st with h | ⟨_, h | h | h⟩
      · rw [h] at hf; exact absurd hf (by decide)
      all_goals
        rw [h] at he
        exact absurd (errfmt_inj n _ _ he) (by decide)
    · refine ⟨hp, (lookup_none_iff _ _).1 ?_⟩
      cases hl : lookup (t.map toupper) instructions with
      | none => rfl
      | some inst =>
        rw [parse_line_instr line t rest n st inst ht hl, if_neg (by omega)] at hf he
        rcases parse_operands_result inst rest n
            { st with out := poke st.out st.pos inst.opcode } with h | ⟨_, h | h | h | h⟩
        · rw [h] at hf; exact absurd hf (by decide)
        all_goals
          rw [h] at he
          exact absurd (errfmt_inj n _ _ he) (by decide)
  · intro h
    rw [hnone h, hmsg]
    exact ⟨rfl, rfl⟩
  · intro h
    rw [hnone h]
    exact ⟨rfl, rfl⟩

/-- Witness of C13: `JM 5` (a proper prefix of `JMP`) on line 9. -/
theorem C13_invalid_mnemonic_witness :
    (parse_line "JM 5\n".toList 9 ⟨fun _ => 0, 3, ""⟩).1 = -1 ∧
    (parse_line "JM 5\n".toList 9 ⟨fun _ => 0, 3, ""⟩).2.errstr =
      toString 9 ++ ": Invalid instruction mnemonic" :=
  ((C13_invalid_mnemonic "JM 5\n".toList "JM".toList "5\n".toList 9 ⟨fun _ => 0, 3, ""⟩
    (by decide) (by decide)).1).2 (by decide)

/-- C14: for a line whose mnemonic names an RA_RB row, at a cursor below 256,
`parse_line` returns 0 exactly when the text after the mnemonic has two
comma/white-space delimited tokens that are both among `r0`, `r1`, `r2`,
`r3`.  A missing first or second token gives `<n>: Invalid combination of
operands`, a first or second token outside the four names gives
`<n>: Invalid register`, whichever position offends first; `R1`, `r4` and `r`
are not register names. -/
theorem C14_register_operands (line t rest : List Char) (n : Nat) (st : State)
    (inst : instruction)
    (ht : strtok " \t\n".toList (strip_comment (cstr line)) = some (t, rest))
    (hl : lookup (t.map toupper) instructions = some inst)
    (hs : inst.nops = OPERANDS_RA_RB) (hc : st.pos < 256) :
    ((parse_line line n st).1 = 0 ↔
      ∃ pa rest1 pb rest2, strtok " ,\t\n".toList rest = some (pa, rest1) ∧
        strtok " ,\t\n".toList rest1 = some (pb, rest2) ∧
        pa ∈ register_names ∧ pb ∈ register_names) ∧
    (strtok " ,\t\n".toList rest = none →
      (parse_line line n st).1 = -1 ∧
      (parse_line line n st).2.errstr = toString n ++ ": Invalid combination of operands") ∧
    (∀ pa rest1, strtok " ,\t\n".toList rest = some (pa, rest1) → pa ∉ register_names →
      (parse_line line n st).1 = -1 ∧
      (parse_line line n st).2.errstr = toString n ++ ": Invalid register") ∧
    (∀ pa rest1, strtok " ,\t\n".toList rest = some (pa, rest1) → pa ∈ register_names →
      strtok " ,\t\n".toList rest1 = none →
      (parse_line line n st).1 = -1 ∧
      (parse_line line n st).2.errstr = toString n ++ ": Invalid combination of operands") ∧
    (∀ pa rest1 pb rest2, strtok " ,\t\n".toList rest = some (pa, rest1) →
      pa ∈ register_names → strtok " ,\t\n".toList rest1 = some (pb, rest2) →
      pb ∉ register_names →
      (parse_line line n st).1 = -1 ∧
      (parse_line line n st).2.errstr = toString n ++ ": Invalid register") ∧
    "R1".toList ∉ register_names ∧ "r4".toList ∉ register_names ∧
    "r".toList ∉ register_names := by
  have hm1 : toString n ++ ": Invalid combination of operands" =
      errfmt n "Invalid combination of operands" := by
    rw [errfmt_append]; rfl
  have hm2 : toString n ++ ": Invalid register" = errfmt n "Invalid register" := by
    rw [errfmt_append]; rfl
  have hD : " ,\t\n".toList = [' ', ',', '\t', '\n'] := rfl
  rw [parse_line_instr line t rest n st inst ht hl, if_neg (by omega), hm1, hm2]
  unfold parse_operands
  rw [hs]
  simp only [inject_ra_eq, inject_rb_eq, ← reg_ok_iff, hD]
  refine ⟨?_, ?_, ?_, ?_, ?_, by decide, by decide, by decide⟩
  · cases h1 : strtok [' ', ',', '\t', '\n'] rest with
    | none => simp
    | some p1 =>
      obtain ⟨pa, rest1⟩ := p1
      by_cases ha : reg_ok pa = true
      · cases h2 : strtok [' ', ',', '\t', '\n'] rest1 with
        | none => simp [ha, h2]
        | some p2 =>
          obtain ⟨pb, rest2⟩ := p2
          by_cases hb : reg_ok pb = true
          · simp only [ha, hb, h2, if_true]
            refine ⟨fun _ => ⟨pa, rest1, pb, rest2, rfl, h2, ha, hb⟩, fun _ => ?_⟩
            simp
          · simp [ha, hb, h2]
      · simp [ha]
  · intro h1
    rw [h1]
    exact ⟨rfl, rfl⟩
  · intro pa rest1 h1 ha
    rw [h1]
    simp [ha]
  · intro pa rest1 h1 ha h2
    rw [h1]
    simp [ha, h2]
  · intro pa rest1 pb rest2 h1 ha h2 hb
    rw [h1]
    simp [ha, h2, hb]

/-- Witness of C14: `add r1, R2` on line 5 is rejected for its second
register, which is written in upper case. -/
theorem C14_register_operands_witness :
    (parse_line "add r1, R2\n".toList 5 ⟨fun _ => 0, 0, ""⟩).1 = -1 ∧
    (parse_line "add r1, R2\n".toList 5 ⟨fun _ => 0, 0, ""⟩).2.errstr =
      toString 5 ++ ": Invalid register" :=
  (C14_register_operands "add r1, R2\n".toList "add".toList "r1, R2\n".toList 5
    ⟨fun _ => 0, 0, ""⟩ ⟨"ADD".toList, 0x80, OPERANDS_RA_RB⟩ (by decide) (by decide) rfl
    (by decide)).2.2.2.2.1 "r1".toList " R2\n".toList "R2".toList [] (by decide) (by decide)
    (by decide) (by decide)

/-- C15: whatever the line and the state, `parse_line` leaves every byte at an
index of 256 or more as it was: the opcode, the register bits, the constant
byte and the bytes zeroed by PAD all land below index 256. -/
theorem C15_no_write_past_buffer (line : List Char) (n : Nat) (st : State) (i : Nat)
    (hi : 256 ≤ i) : (parse_line line n st).2.out i = st.out i := by
  unfold parse_line parse_pad parse_operands
  simp only [check_output_length_fst, parse_constant_eq]
  have h1 : ∀ (v : Nat) (f : Nat → Nat) (p : Nat), p < 256 → poke f p v i = f i := by
    intro v f p hp
    unfold poke
    rw [if_neg (by omega)]
  have h2 : ∀ (f : Nat → Nat) (p k : Nat), p + k < 256 → memset0 f p k i = f i := by
    intro f p k hp
    unfold memset0
    rw [if_neg (by omega)]
  repeat' split
  all_goals try dsimp only at *
  all_goals first
    | rfl
    | (rw [h2 _ _ _ (by omega)])
    | (rw [h1 _ _ _ (by omega), h1 _ _ _ (by omega), h1 _ _ _ (by omega)])
    | (rw [h1 _ _ _ (by omega), h1 _ _ _ (by omega)])
    | (rw [h1 _ _ _ (by omega)])

/-- Witness of C15: `PAD 255` at cursor 0 leaves the byte at index 256 alone. -/
theorem C15_no_write_past_buffer_witness :
    (parse_line "PAD 255".toList 1 ⟨fun i => i, 0, ""⟩).2.out 256 = 256 :=
  C15_no_write_past_buffer "PAD 255".toList 1 ⟨fun i => i, 0, ""⟩ 256 (by decide)

/-- C16, the claim as stated fails: `JMP 5` at cursor 255 is rejected with the
capacity message, but the call has stored the opcode 0x40 at index 255 and
moved the cursor to 256, so image and cursor are not what they were. -/
theorem C16_partial_write_counterexample :
    (parse_line "JMP 5".toList 1 ⟨fun _ => 0, 255, ""⟩).1 = -1 ∧
    (parse_line "JMP 5".toList 1 ⟨fun _ => 0, 255, ""⟩).2.errstr =
      "1: Resulting file too large - output file size limit: 256 bytes" ∧
    ¬ ((parse_line "JMP 5".toList 1 ⟨fun _ => 0, 255, ""⟩).2.out 255 = 0 ∧
       (parse_line "JMP 5".toList 1 ⟨fun _ => 0, 255, ""⟩).2.pos = 255) := by
  decide

/-- C16, amended: a valid two-byte instruction line (its first token names an
RB_K or K row and its operands are well formed) at cursor 255 is rejected
with the capacity message; the cursor is left at 256, the byte at index 255
holds the opcode (OR-ed with the register number for RB_K), and every other
byte of the image is unchanged. -/
theorem C16_two_byte_at_last_slot (line t rest : List Char) (n : Nat) (st : State)
    (inst : instruction)
    (ht : strtok " \t\n".toList (strip_comment (cstr line)) = some (t, rest))
    (hl : lookup (t.map toupper) instructions = some inst)
    (hs : inst.nops = OPERANDS_RB_K ∨ inst.nops = OPERANDS_K)
    (hok : operands_ok inst rest = true) (hc : st.pos = 255) :
    (parse_line line n st).1 = -1 ∧
    (parse_line line n st).2.errstr =
      toString n ++ ": Resulting file too large - output file size limit: 256 bytes" ∧
    (parse_line line n st).2.pos = 256 ∧
    (∀ i, i ≠ 255 → (parse_line line n st).2.out i = st.out i) ∧
    (inst.nops = OPERANDS_K → (parse_line line n st).2.out 255 = inst.opcode) ∧
    (inst.nops = OPERANDS_RB_K → ∃ pb rest1, strtok " ,\t\n".toList rest = some (pb, rest1) ∧
      pb ∈ register_names ∧
      (parse_line line n st).2.out 255 = inst.opcode ||| reg_number pb) := by
  have hm : toString n ++ ": Resulting file too large - output file size limit: 256 bytes" =
      errfmt n "Resulting file too large - output file size limit: 256 bytes" := by
    rw [errfmt_append]; rfl
  have hD : " ,\t\n".toList = [' ', ',', '\t', '\n'] := rfl
  rw [parse_line_instr line t rest n st inst ht hl, if_neg (by omega), hm]
  unfold parse_operands
  unfold operands_ok at hok
  rcases hs with hs | hs
  · rw [hs] at hok ⊢
    simp only [hD] at hok ⊢
    cases h1 : strtok [' ', ',', '\t', '\n'] rest with
    | none => rw [h1] at hok; exact absurd hok (by simp)
    | some p1 =>
      obtain ⟨pb, rest1⟩ := p1
      rw [h1] at hok
      simp only [Bool.and_eq_true] at hok
      have hb := hok.1
      simp only [inject_rb_eq, check_output_length_eq, hb, if_true, hc]
      refine ⟨rfl, rfl, rfl, ?_, by simp, fun _ => ⟨pb, rest1, rfl, (reg_ok_iff pb).1 hb, ?_⟩⟩
      · intro i hi
        simp [poke, hi]
      · simp [poke]
  · rw [hs]
    simp only [check_output_length_eq, hc]
    refine ⟨rfl, rfl, rfl, ?_, fun _ => by simp [poke], by simp⟩
    intro i hi
    simp [poke, hi]

/-- Witness of C16 (amended): `data r3, 7` at cursor 255 leaves 0x23 at index
255 and the cursor at 256. -/
theorem C16_two_byte_at_last_slot_witness :
    (parse_line "data r3, 7\n".toList 2 ⟨fun _ => 0, 255, ""⟩).1 = -1 ∧
    (parse_line "data r3, 7\n".toList 2 ⟨fun _ => 0, 255, ""⟩).2.pos = 256 ∧
    (parse_line "data r3, 7\n".toList 2 ⟨fun _ => 0, 255, ""⟩).2.out 255 = 0x23 :=
  ⟨(C16_two_byte_at_last_slot "data r3, 7\n".toList "data".toList "r3, 7\n".toList 2
      ⟨fun _ => 0, 255, ""⟩ ⟨"DATA".toList, 0x20, OPERANDS_RB_K⟩ (by decide) (by decide)
      (Or.inl rfl) (by decide) rfl).1,
   (C16_two_byte_at_last_slot "data r3, 7\n".toList "data".toList "r3, 7\n".toList 2
      ⟨fun _ => 0, 255, ""⟩ ⟨"DATA".toList, 0x20, OPERANDS_RB_K⟩ (by decide) (by decide)
      (Or.inl rfl) (by decide) rfl).2.2.1,
   by decide⟩

/-- C17: when two instruction lines are both accepted and the bytes stored at
their cursors are equal, the table rows they matched are the same and their
register operand tokens are the same.  The table has pairwise distinct
mnemonics, every RA_RB base has its low four bits clear and every RB and RB_K
base its low two bits clear, and the opcode ranges of two different rows
(16 bytes for RA_RB, 4 for RB and RB_K, 1 otherwise) do not overlap. -/
theorem C17_opcode_determines (line1 t1 rest1 : List Char) (n1 : Nat) (st1 : State)
    (inst1 : instruction) (line2 t2 rest2 : List Char) (n2 : Nat) (st2 : State)
    (inst2 : instruction)
    (ht1 : strtok " \t\n".toList (strip_comment (cstr line1)) = some (t1, rest1))
    (hl1 : lookup (t1.map toupper) instructions = some inst1)
    (hok1 : (parse_line line1 n1 st1).1 = 0)
    (ht2 : strtok " \t\n".toList (strip_comment (cstr line2)) = some (t2, rest2))
    (hl2 : lookup (t2.map toupper) instructions = some inst2)
    (hok2 : (parse_line line2 n2 st2).1 = 0)
    (hbyte : (parse_line line1 n1 st1).2.out st1.pos = (parse_line line2 n2 st2).2.out st2.pos) :
    inst1 = inst2 ∧ register_operands inst1 rest1 = register_operands inst2 rest2 ∧
    (instructions.map instruction.mnemonic).Nodup ∧
    (∀ e ∈ instructions, (e.nops = OPERANDS_RA_RB → e.opcode &&& 0x0f = 0) ∧
      (e.nops = OPERANDS_RB ∨ e.nops = OPERANDS_RB_K → e.opcode &&& 0x03 = 0)) ∧
    (∀ e1 ∈ instructions, ∀ e2 ∈ instructions, e1 ≠ e2 →
      e1.opcode + span e1.nops ≤ e2.opcode ∨ e2.opcode + span e2.nops ≤ e1.opcode) := by
  refine ⟨?_, ?_, by decide, by decide, by decide⟩
  all_goals
    rw [parse_line_instr line1 t1 rest1 n1 st1 inst1 ht1 hl1] at hok1 hbyte
    rw [parse_line_instr line2 t2 rest2 n2 st2 inst2 ht2 hl2] at hok2 hbyte
    have hc1 : ¬ 256 ≤ st1.pos := by
      intro hc
      rw [if_pos hc] at hok1
      exact absurd hok1 (by simp)
    have hc2 : ¬ 256 ≤ st2.pos := by
      intro hc
      rw [if_pos hc] at hok2
      exact absurd hok2 (by simp)
    rw [if_neg hc1] at hok1 hbyte
    rw [if_neg hc2] at hok2 hbyte
    obtain ⟨pa1, ha1, pb1, hb1, hr1, he1⟩ := parse_operands_encoded inst1 rest1 n1 st1 hok1
    obtain ⟨pa2, ha2, pb2, hb2, hr2, he2⟩ := parse_operands_encoded inst2 rest2 n2 st2 hok2
    rw [he1, he2] at hbyte
    have hd1 := decode_encode inst1 (lookup_mem _ _ _ hl1) pa1 ha1 pb1 hb1
    have hd2 := decode_encode inst2 (lookup_mem _ _ _ hl2) pa2 ha2 pb2 hb2
    rw [hbyte, hd2] at hd1
    simp only [Option.some.injEq, Prod.mk.injEq] at hd1
  · exact hd1.1.symm
  · rw [hr1, hr2]
    exact hd1.2.symm

/-- Witness of C17: `ld r1, r2` and `LD r1,r2` both store 0x06; they match the
same row and name the same registers. -/
theorem C17_opcode_determines_witness :
    (⟨"LD".toList, 0x00, OPERANDS_RA_RB⟩ : instruction) = ⟨"LD".toList, 0x00, OPERANDS_RA_RB⟩ ∧
    register_operands ⟨"LD".toList, 0x00, OPERANDS_RA_RB⟩ "r1, r2\n".toList =
      register_operands ⟨"LD".toList, 0x00, OPERANDS_RA_RB⟩ "r1,r2".toList :=
  ⟨(C17_opcode_determines "ld r1, r2\n".toList "ld".toList "r1, r2\n".toList 1
      ⟨fun _ => 0, 0, ""⟩ ⟨"LD".toList, 0x00, OPERANDS_RA_RB⟩
      "LD r1,r2".toList "LD".toList "r1,r2".toList 7 ⟨fun _ => 0, 9, ""⟩
      ⟨"LD".toList, 0x00, OPERANDS_RA_RB⟩ (by decide) (by decide) (by decide) (by decide)
      (by decide) (by decide) (by decide)).1,
   (C17_opcode_determines "ld r1, r2\n".toList "ld".toList "r1, r2\n".toList 1
      ⟨fun _ => 0, 0, ""⟩ ⟨"LD".toList, 0x00, OPERANDS_RA_RB⟩
      "LD r1,r2".toList "LD".toList "r1,r2".toList 7 ⟨fun _ => 0, 9, ""⟩
      ⟨"LD".toList, 0x00, OPERANDS_RA_RB⟩ (by decide) (by decide) (by decide) (by decide)
      (by decide) (by decide) (by decide)).2.1⟩

/-- C18 (the code departs from the claim): `foo` and `r1` store 0, but `12abc`
stores 12 and `1fgh` stores 31, the value of their numeric prefix, and
`999abc` is rejected by the range test. -/
theorem C18_unparsable_constants (n b : Nat) (e : String) :
    parse_constant "foo".toList n b e = (0, 0, e) ∧
    parse_constant "r1".toList n b e = (0, 0, e) ∧
    parse_constant "12abc".toList n b e = (0, 12, e) ∧
    parse_constant "1fgh".toList n b e = (0, 31, e) ∧
    (parse_constant "999abc".toList n b e).1 = -1 := by
  have h1 : constant_value "foo".toList = 0 := by decide
  have h2 : constant_value "r1".toList = 0 := by decide
  have h3 : constant_value "12abc".toList = 12 := by decide
  have h4 : constant_value "1fgh".toList = 31 := by decide
  have h5 : constant_value "999abc".toList = 999 := by decide
  simp only [parse_constant_eq, h1, h2, h3, h4, h5]
  simp

/-- C19: for `-128 ≤ k ≤ -1` the line `PAD <k>` gives the same result code and
the same state (image, cursor, error buffer) as the line `PAD <256+k>`, in
every state; `PAD -1` at cursor 0 is accepted, zeroes the bytes 0..254 and
leaves the cursor at 255. -/
theorem C19_negative_pad (k : Int) (hlo : -128 ≤ k) (hhi : k ≤ -1) (nl : List Char)
    (hnl : nl = [] ∨ nl = ['\n']) (n : Nat) (st : State) :
    parse_line (pad_line k ++ nl) n st = parse_line (pad_line (256 + k) ++ nl) n st ∧
    pad_line (-1) = "PAD -1".toList ∧
    (st.pos = 0 → (parse_line (pad_line (-1) ++ nl) n st).1 = 0 ∧
      (parse_line (pad_line (-1) ++ nl) n st).2.pos = 255 ∧
      ∀ i, i < 255 → (parse_line (pad_line (-1) ++ nl) n st).2.out i = 0) := by
  refine ⟨?_, by decide, ?_⟩
  · rw [parse_line_pad_literal k hlo (by omega) nl hnl n st,
      parse_line_pad_literal (256 + k) (by omega) (by omega) nl hnl n st]
    have : (256 + k) % 256 = k % 256 := by omega
    rw [this]
  · intro h0
    rw [parse_line_pad_literal (-1) (by decide) (by decide) nl hnl n st, h0]
    have h255 : ((-1 : Int) % 256).toNat = 255 := by decide
    rw [h255, if_neg (by decide)]
    refine ⟨rfl, rfl, ?_⟩
    intro i hi
    simp [memset0, hi]

/-- Witness of C19: `PAD -3` and `PAD 253` at cursor 2. -/
theorem C19_negative_pad_witness :
    pad_line (-3) ++ ['\n'] = "PAD -3\n".toList ∧
    pad_line (256 + -3) ++ ['\n'] = "PAD 253\n".toList ∧
    parse_line (pad_line (-3) ++ ['\n']) 1 ⟨fun _ => 0, 2, ""⟩ =
      parse_line (pad_line (256 + -3) ++ ['\n']) 1 ⟨fun _ => 0, 2, ""⟩ :=
  ⟨by decide, by decide,
   (C19_negative_pad (-3) (by decide) (by decide) ['\n'] (Or.inr rfl) 1
      ⟨fun _ => 0, 2, ""⟩).1⟩

/-- C20: a token `0x` followed by hexadecimal digits whose last character is
`b` is read in base 2 after the `b` is dropped, so `parse_constant` accepts it
and stores 0; a token `0x` followed by hexadecimal digits of value at most 255
whose last character is neither `b` nor `h` stores that value. -/
theorem C20_suffix_test_first (ds : List Char) (hds : ∀ c ∈ ds, is_hex_digit c)
    (n b : Nat) (e : String) :
    (ds.getLast? = some 'b' → parse_constant ('0' :: 'x' :: ds) n b e = (0, 0, e)) ∧
    (ds ≠ [] → ds.getLast? ≠ some 'b' → ds.getLast? ≠ some 'h' → hex_value ds ≤ 255 →
      parse_constant ('0' :: 'x' :: ds) n b e = (0, hex_value ds, e)) := by
  constructor
  · intro hb
    obtain ⟨ys, hys⟩ := List.getLast?_eq_some_iff.1 hb
    subst hys
    have hv : constant_value ('0' :: 'x' :: (ys ++ ['b'])) = 0 := by
      unfold constant_value
      have h1 : ('0' :: 'x' :: (ys ++ ['b'])) = ('0' :: 'x' :: ys) ++ ['b'] := rfl
      rw [h1, List.getLast?_concat, if_pos rfl, List.dropLast_concat]
      simp [strtol, isspace, has_hex_prefix, strtol_digits, digit_value, LONG_MAX]
    rw [parse_constant_eq, hv]
    simp
  · intro hne hb hh hv
    cases ds with
    | nil => exact absurd rfl hne
    | cons d tl =>
      obtain ⟨h1, h2⟩ := hex_digit_spec d (hds d (List.mem_cons_self _ _))
      have hlast : ('0' :: 'x' :: d :: tl).getLast? = (d :: tl).getLast? := by
        rw [List.getLast?_cons_cons, List.getLast?_cons_cons]
      have hpre : has_hex_prefix ('0' :: 'x' :: d :: tl) = true := by
        simp [ has_hex_prefix, h1, h2]
      have hval : constant_value ('0' :: 'x' :: d :: tl) = (hex_value (d :: tl) : Nat) := by
        unfold constant_value
        rw [hlast, if_neg hb, if_neg hh]
        unfold strtol
        have hsp : List.dropWhile isspace ('0' :: 'x' :: d :: tl) = '0' :: 'x' :: d :: tl := by
          simp [List.dropWhile_cons, isspace]
        have hL : LONG_MAX = 9223372036854775807 := by decide
        have hdig : strtol_digits 16 (d :: tl) 0 = hex_value (d :: tl) :=
          strtol_digits_hex (d :: tl) hds 0
        simp only [hsp]
        simp [hpre, hL]
        omega
      rw [parse_constant_eq, hval]
      have hr : ¬ (((hex_value (d :: tl) : Nat) : Int) < -128 ∨
          ((hex_value (d :: tl) : Nat) : Int) > 255) := by omega
      rw [if_neg hr]
      have : (((hex_value (d :: tl) : Nat) : Int) % 256).toNat = hex_value (d :: tl) := by omega
      rw [this]

/-- Witness of C20: `0x1b` stores 0, `0x1B` stores 27. -/
theorem C20_suffix_test_first_witness :
    parse_constant "0x1b".toList 1 7 "" = (0, 0, "") ∧
    parse_constant "0x1B".toList 1 7 "" = (0, hex_value "1B".toList, "") ∧
    hex_value "1B".toList = 27 :=
  ⟨(C20_suffix_test_first "1b".toList (by unfold is_hex_digit; decide) 1 7 "").1 (by decide),
   (C20_suffix_test_first "1B".toList (by unfold is_hex_digit; decide) 1 7 "").2 (by decide)
     (by decide) (by decide) (by decide),
   by decide⟩

end Sca
